import Mathlib

/-!
Verification of the TCP length-prefixed message protocol from
`tcp_socket/server.py` and `tcp_socket/client.py`, shallowly embedded:
Python byte strings are `List Nat` (byte values), Python `str` values are
`List Nat` (Unicode code points), JSON-representable Python values are the
inductive `PyValue`.
-/

/-- A Python value as produced by `json.loads` / consumed by `json.dumps`:
strings (lists of code points), integers, booleans, `None`, lists and
string-keyed dicts (insertion-ordered association lists). A float produced
by parsing is represented by its numeric source token (`pfloat`); IEEE float
values and arithmetic are outside the embedding, so the theorems that
quantify over serialized values restrict to float-free ones (`floatFree`). -/
inductive PyValue : Type where
  | pstr : List Nat → PyValue
  | pint : Int → PyValue
  | pbool : Bool → PyValue
  | pnull : PyValue
  | pfloat : List Nat → PyValue
  | plist : List PyValue → PyValue
  | pdict : List (List Nat × PyValue) → PyValue

/-- Code points of a Lean string literal, for readable constants. -/
def strCodes (s : String) : List Nat := s.data.map Char.toNat

/-! ## JSON serialization (model of `json.dumps` with default separators)

`json.dumps` on the values the protocol handles: `dict` → `{"k": v, ...}`,
`list` → `[a, b]`, ints in decimal, `true`/`false`/`null`, strings quoted with
the quote, the backslash and control characters escaped. The model emits
non-ASCII code points literally; Python's default `ensure_ascii=True` escapes
them as backslash-u sequences instead, a byte-level difference that no claim
observes (both parse back to the same value). -/

/-- Hex digit code point (lowercase), for control-character escapes. -/
def hexDigit (n : Nat) : Nat := if n < 10 then 48 + n else 87 + n

/-- Escape one code point inside a JSON string, as Python does: quote,
backslash, the named control escapes, then a 4-hex-digit escape for the
remaining control characters; everything else is emitted literally. -/
def escChar (c : Nat) : List Nat :=
  if c = 34 then [92, 34]
  else if c = 92 then [92, 92]
  else if c = 8 then [92, 98]
  else if c = 9 then [92, 116]
  else if c = 10 then [92, 110]
  else if c = 12 then [92, 102]
  else if c = 13 then [92, 114]
  else if c < 32 then [92, 117, 48, 48, hexDigit (c / 16), hexDigit (c % 16)]
  else [c]

/-- Escape the body of a JSON string. -/
def escStr : List Nat → List Nat
  | [] => []
  | c :: t => escChar c ++ escStr t

/-- A serialized JSON string: quote, escaped body, quote. -/
def dumpStr (s : List Nat) : List Nat := 34 :: escStr s ++ [34]

/-- Decimal digits, fuel-structured so the kernel can evaluate it
(`natToDigits_eq` recovers the natural recursion equation). -/
def natDigitsAux (fuel n : Nat) : List Nat :=
  match fuel with
  | 0 => []
  | f + 1 => if n < 10 then [48 + n] else natDigitsAux f (n / 10) ++ [48 + n % 10]

/-- Decimal digits (as code points) of a natural number. -/
def natToDigits (n : Nat) : List Nat := natDigitsAux (n + 1) n

/-- Decimal representation of an integer. -/
def intToDigits (i : Int) : List Nat :=
  if i < 0 then 45 :: natToDigits (-i).toNat else natToDigits i.toNat

mutual
/-- `json.dumps` on a `PyValue` (see the module note on `ensure_ascii`).
A `pfloat` re-emits its source token; Python emits the float's `repr`. No
claim serializes a float: the inversion theorems and the round-trip claims
restrict to `floatFree` values, so this case only keeps the function total. -/
def dumps : PyValue → List Nat
  | .pstr s => dumpStr s
  | .pint i => intToDigits i
  | .pbool true => strCodes "true"
  | .pbool false => strCodes "false"
  | .pnull => strCodes "null"
  | .pfloat tok => tok
  | .plist [] => [91, 93]
  | .plist (x :: xs) => 91 :: (dumps x ++ dumpsItems xs ++ [93])
  | .pdict [] => [123, 125]
  | .pdict ((k, v) :: kvs) =>
      123 :: (dumpStr k ++ [58, 32] ++ dumps v ++ dumpsPairs kvs ++ [125])

/-- Remaining list items, each preceded by the default separator chars. -/
def dumpsItems : List PyValue → List Nat
  | [] => []
  | x :: xs => 44 :: 32 :: (dumps x ++ dumpsItems xs)

/-- Remaining dict pairs, each preceded by the default separator chars. -/
def dumpsPairs : List (List Nat × PyValue) → List Nat
  | [] => []
  | (k, v) :: kvs => 44 :: 32 :: (dumpStr k ++ [58, 32] ++ dumps v ++ dumpsPairs kvs)
end

/-! ## JSON parsing (model of `json.loads`)

A recursive-descent parser over code points. Fuel bounds the recursion into
nested containers; `loads` supplies fuel exceeding what any serialized value
needs (`fsize_le_dumps` below). The parser accepts the grammar Python's
`json.loads` accepts by default: the JSON values of the embedding, numbers
with an optional fraction and exponent (which Python parses as floats —
`123` is an int, `1.5`, `1e5`, `0e0` are floats), and the non-JSON constants
`NaN`, `Infinity` and `-Infinity`. A bare word like `hello` does not parse —
matching `json.loads`, which raises `JSONDecodeError` on it. The number
scanner is maximal-munch like Python's regular expression: an incomplete
fraction or exponent is left unconsumed (`1e` scans as the int `1` with
rest `e`, which then fails as trailing data, exactly as in Python). -/

/-- JSON whitespace. -/
def isWs (c : Nat) : Bool := c = 32 || c = 9 || c = 10 || c = 13

/-- Skip leading JSON whitespace. -/
def skipWs : List Nat → List Nat
  | [] => []
  | c :: t => if isWs c then skipWs t else c :: t

/-- Decimal digit test. -/
def isDigitB (c : Nat) : Bool := decide (48 ≤ c ∧ c ≤ 57)

/-- True when the input does not begin with a character a preceding number
token could greedily absorb: a decimal digit, a decimal point or an exponent
letter. -/
def numStop : List Nat → Bool
  | [] => true
  | c :: _ => !(isDigitB c || c = 46 || c = 101 || c = 69)

/-- Value of a hex digit code point. -/
def parseHex (c : Nat) : Option Nat :=
  if 48 ≤ c ∧ c ≤ 57 then some (c - 48)
  else if 97 ≤ c ∧ c ≤ 102 then some (c - 87)
  else if 65 ≤ c ∧ c ≤ 70 then some (c - 55)
  else none

/-- Unescape a single-character JSON escape. -/
def escMap (e : Nat) : Option Nat :=
  if e = 34 then some 34
  else if e = 92 then some 92
  else if e = 47 then some 47
  else if e = 98 then some 8
  else if e = 102 then some 12
  else if e = 110 then some 10
  else if e = 114 then some 13
  else if e = 116 then some 9
  else none

/-- Parse the body of a JSON string (after the opening quote), returning the
decoded code points and the input after the closing quote. Surrogate pairing
of adjacent 4-hex escapes is not modelled; the serializer only emits such
escapes for control characters. -/
def parseStringBody : List Nat → Option (List Nat × List Nat)
  | [] => none
  | c :: t =>
    if c = 34 then some ([], t)
    else if c = 92 then
      match t with
      | [] => none
      | e :: t1 =>
        if e = 117 then
          match t1 with
          | h1 :: h2 :: h3 :: h4 :: t2 =>
            match parseHex h1, parseHex h2, parseHex h3, parseHex h4,
                parseStringBody t2 with
            | some a, some b, some c2, some d, some (s, r) =>
                some ((((a * 16 + b) * 16 + c2) * 16 + d) :: s, r)
            | _, _, _, _, _ => none
          | _ => none
        else
          match escMap e with
          | some x =>
            match parseStringBody t1 with
            | some (s, r) => some (x :: s, r)
            | none => none
          | none => none
    else if c < 32 then none
    else
      match parseStringBody t with
      | some (s, r) => some (c :: s, r)
      | none => none

/-- Accumulator-style value of a decimal digit run. -/
def digitsVal (acc : Nat) : List Nat → Nat
  | [] => acc
  | d :: ds => digitsVal (acc * 10 + (d - 48)) ds

/-- Parse a nonempty run of decimal digits with JSON's no-leading-zero rule. -/
def parseNum (s : List Nat) : Option (Nat × List Nat) :=
  let ds := s.takeWhile isDigitB
  let r := s.dropWhile isDigitB
  match ds with
  | [] => none
  | [d] => some (d - 48, r)
  | d :: _ :: _ => if d = 48 then none else some (digitsVal 0 ds, r)

/-- The optional fraction part of a number: a decimal point followed by at
least one digit, returned as the consumed token with the rest; anything else
is left unconsumed, as the scanner's regular expression simply matches
without the optional group. -/
def parseFracPart (s : List Nat) : List Nat × List Nat :=
  match s with
  | [] => ([], [])
  | c :: t =>
    if c = 46 then
      if (t.takeWhile isDigitB).isEmpty then ([], c :: t)
      else (c :: t.takeWhile isDigitB, t.dropWhile isDigitB)
    else ([], c :: t)

/-- The optional exponent part of a number: `e` or `E`, an optional sign and
at least one digit; left unconsumed when incomplete. -/
def parseExpPart (s : List Nat) : List Nat × List Nat :=
  match s with
  | [] => ([], [])
  | c :: t =>
    if c = 101 ∨ c = 69 then
      match t with
      | [] => ([], [c])
      | c2 :: t2 =>
        if c2 = 43 ∨ c2 = 45 then
          if (t2.takeWhile isDigitB).isEmpty then ([], c :: c2 :: t2)
          else (c :: c2 :: t2.takeWhile isDigitB, t2.dropWhile isDigitB)
        else if (t.takeWhile isDigitB).isEmpty then ([], c :: t)
        else (c :: t.takeWhile isDigitB, t.dropWhile isDigitB)
    else ([], c :: t)

/-- Parse a number after the optional minus sign, following the scanner's
maximal-munch regular expression: an integer part with no leading zero, then
an optional fraction and an optional exponent. With neither optional part
present the result is an int; with either present Python converts the match
to a float, modelled as a `pfloat` carrying the matched token. -/
def parseNumber (neg : Bool) (s : List Nat) : Option (PyValue × List Nat) :=
  match parseNum s with
  | none => none
  | some (n, r1) =>
    match parseFracPart r1 with
    | (frac, r2) =>
      match parseExpPart r2 with
      | (ex, r3) =>
        if frac.isEmpty && ex.isEmpty then
          some (.pint (if neg then -(n : Int) else (n : Int)), r1)
        else
          some (.pfloat ((if neg then [45] else []) ++ s.takeWhile isDigitB ++ frac ++ ex), r3)

/-- The literal constants the scanner recognizes at a value position:
`null`, `true`, `false`, and the non-JSON constants `NaN` and `Infinity`
that Python accepts by default and parses as floats. -/
def parseConst (s : List Nat) : Option (PyValue × List Nat) :=
  match s with
  | 110 :: 117 :: 108 :: 108 :: r => some (.pnull, r)
  | 116 :: 114 :: 117 :: 101 :: r => some (.pbool true, r)
  | 102 :: 97 :: 108 :: 115 :: 101 :: r => some (.pbool false, r)
  | 78 :: 97 :: 78 :: r => some (.pfloat [78, 97, 78], r)
  | 73 :: 110 :: 102 :: 105 :: 110 :: 105 :: 116 :: 121 :: r =>
      some (.pfloat [73, 110, 102, 105, 110, 105, 116, 121], r)
  | _ => none

mutual
/-- Parse one JSON value after optional whitespace. -/
def parseValue (fuel : Nat) (input : List Nat) : Option (PyValue × List Nat) :=
  match fuel with
  | 0 => none
  | f + 1 =>
    match skipWs input with
    | [] => none
    | c :: t =>
      if c = 123 then
        match skipWs t with
        | [] => none
        | c2 :: t2 =>
          if c2 = 125 then some (.pdict [], t2)
          else if c2 = 34 then
            match parseStringBody t2 with
            | some (k, r2) =>
              match skipWs r2 with
              | [] => none
              | c3 :: r3 =>
                if c3 = 58 then
                  match parseValue f r3 with
                  | some (v, r4) => parsePairsRest f [(k, v)] r4
                  | none => none
                else none
            | none => none
          else none
      else if c = 91 then
        match skipWs t with
        | [] => none
        | c2 :: t2 =>
          if c2 = 93 then some (.plist [], t2)
          else
            match parseValue f t with
            | some (v, r1) => parseItemsRest f [v] r1
            | none => none
      else if c = 34 then
        match parseStringBody t with
        | some (s, r) => some (.pstr s, r)
        | none => none
      else if c = 45 then
        if t.take 8 = strCodes "Infinity" then
          some (.pfloat (45 :: strCodes "Infinity"), t.drop 8)
        else parseNumber true t
      else if 48 ≤ c ∧ c ≤ 57 then
        parseNumber false (c :: t)
      else parseConst (c :: t)

/-- Parse the items of a JSON array after the first, given the accumulated
elements so far. -/
def parseItemsRest (fuel : Nat) (acc : List PyValue) (input : List Nat) :
    Option (PyValue × List Nat) :=
  match fuel with
  | 0 => none
  | f + 1 =>
    match skipWs input with
    | [] => none
    | c :: r =>
      if c = 93 then some (.plist acc, r)
      else if c = 44 then
        match parseValue f r with
        | some (v, r1) => parseItemsRest f (acc ++ [v]) r1
        | none => none
      else none

/-- Parse the pairs of a JSON object after the first, given the accumulated
pairs so far. -/
def parsePairsRest (fuel : Nat) (acc : List (List Nat × PyValue))
    (input : List Nat) : Option (PyValue × List Nat) :=
  match fuel with
  | 0 => none
  | f + 1 =>
    match skipWs input with
    | [] => none
    | c :: r =>
      if c = 125 then some (.pdict acc, r)
      else if c = 44 then
        match skipWs r with
        | [] => none
        | c2 :: r1 =>
          if c2 = 34 then
            match parseStringBody r1 with
            | some (k, r2) =>
              match skipWs r2 with
              | [] => none
              | c3 :: r3 =>
                if c3 = 58 then
                  match parseValue f r3 with
                  | some (v, r4) => parsePairsRest f (acc ++ [(k, v)]) r4
                  | none => none
                else none
            | none => none
          else none
      else none
end

mutual
/-- Fuel a successful parse of a serialized value needs (`fsize_le_dumps`
bounds it by the serialized length). -/
def fsize : PyValue → Nat
  | .pstr _ => 1
  | .pint _ => 1
  | .pbool _ => 1
  | .pnull => 1
  | .pfloat _ => 1
  | .plist xs => 1 + fsizeL xs
  | .pdict kvs => 1 + fsizeD kvs

/-- `fsize` over remaining array items. -/
def fsizeL : List PyValue → Nat
  | [] => 0
  | x :: xs => 1 + fsize x + fsizeL xs

/-- `fsize` over remaining object pairs. -/
def fsizeD : List (List Nat × PyValue) → Nat
  | [] => 0
  | (_, v) :: kvs => 1 + fsize v + fsizeD kvs
end

mutual
/-- No `pfloat` anywhere inside the value: the fragment of the embedding on
which `json.dumps` is modelled faithfully and the inversion theorems hold. -/
def floatFree : PyValue → Bool
  | .pstr _ => true
  | .pint _ => true
  | .pbool _ => true
  | .pnull => true
  | .pfloat _ => false
  | .plist xs => floatFreeL xs
  | .pdict kvs => floatFreeD kvs

/-- `floatFree` over list items. -/
def floatFreeL : List PyValue → Bool
  | [] => true
  | x :: xs => floatFree x && floatFreeL xs

/-- `floatFree` over dict pairs. -/
def floatFreeD : List (List Nat × PyValue) → Bool
  | [] => true
  | (_, v) :: kvs => floatFree v && floatFreeD kvs
end

/-- `json.loads`: parse one value and require only whitespace to remain
(otherwise Python raises, which the model renders as `none`). -/
def loads (s : List Nat) : Option PyValue :=
  match parseValue (s.length + 1) s with
  | some (v, rest) => if skipWs rest = [] then some v else none
  | none => none


/-! ## UTF-8 (model of `str.encode` / `bytes.decode`)

`encode('utf-8')` raises `UnicodeEncodeError` on surrogate code points
(modelled as `none`); `decode('utf-8')` raises `UnicodeDecodeError` on byte
sequences that are not valid UTF-8 — continuation errors, truncation,
overlong forms, surrogates, out-of-range values (modelled as `none`). -/

/-- UTF-8 bytes of one code point; `none` for surrogates and values past the
Unicode range (Python raises `UnicodeEncodeError`). -/
def utf8EncodeChar (c : Nat) : Option (List Nat) :=
  if c < 128 then some [c]
  else if c < 2048 then some [192 + c / 64, 128 + c % 64]
  else if c < 65536 then
    if 55296 ≤ c ∧ c ≤ 57343 then none
    else some [224 + c / 4096, 128 + c / 64 % 64, 128 + c % 64]
  else if c < 1114112 then
    some [240 + c / 262144, 128 + c / 4096 % 64, 128 + c / 64 % 64, 128 + c % 64]
  else none

/-- UTF-8 encoding of a string of code points. -/
def utf8Encode : List Nat → Option (List Nat)
  | [] => some []
  | c :: t =>
    match utf8EncodeChar c, utf8Encode t with
    | some bs, some rest => some (bs ++ rest)
    | _, _ => none

/-- Decode one UTF-8-encoded code point from the head of a byte string,
returning it with the remaining bytes; `none` on any invalid sequence
(continuation errors, truncation, overlong forms, surrogates, out-of-range). -/
def utf8DecodeChar1 : List Nat → Option (Nat × List Nat)
  | [] => none
  | b :: t =>
    if b < 128 then some (b, t)
    else if b < 194 then none
    else if b < 224 then
      match t with
      | b1 :: t1 =>
        if 128 ≤ b1 ∧ b1 < 192 then some ((b - 192) * 64 + (b1 - 128), t1) else none
      | [] => none
    else if b < 240 then
      match t with
      | b1 :: b2 :: t2 =>
        if (128 ≤ b1 ∧ b1 < 192) ∧ (128 ≤ b2 ∧ b2 < 192) then
          if (b - 224) * 4096 + (b1 - 128) * 64 + (b2 - 128) < 2048 then none
          else if 55296 ≤ (b - 224) * 4096 + (b1 - 128) * 64 + (b2 - 128) ∧
              (b - 224) * 4096 + (b1 - 128) * 64 + (b2 - 128) ≤ 57343 then none
          else some ((b - 224) * 4096 + (b1 - 128) * 64 + (b2 - 128), t2)
        else none
      | _ => none
    else if b < 245 then
      match t with
      | b1 :: b2 :: b3 :: t3 =>
        if (128 ≤ b1 ∧ b1 < 192) ∧ (128 ≤ b2 ∧ b2 < 192) ∧ (128 ≤ b3 ∧ b3 < 192) then
          if (b - 240) * 262144 + (b1 - 128) * 4096 + (b2 - 128) * 64 + (b3 - 128) < 65536
          then none
          else if 1114112 ≤ (b - 240) * 262144 + (b1 - 128) * 4096 + (b2 - 128) * 64 +
              (b3 - 128) then none
          else some ((b - 240) * 262144 + (b1 - 128) * 4096 + (b2 - 128) * 64 + (b3 - 128), t3)
        else none
      | _ => none
    else none

/-- Decode code points one at a time; the fuel only bounds the number of
decoded code points and `utf8Decode` supplies one unit per input byte, which
always suffices since every code point consumes at least one byte. -/
def utf8DecodeLoop : Nat → List Nat → Option (List Nat)
  | _, [] => some []
  | 0, _ :: _ => none
  | fuel + 1, b :: t =>
    match utf8DecodeChar1 (b :: t) with
    | some (c, r) =>
      match utf8DecodeLoop fuel r with
      | some s => some (c :: s)
      | none => none
    | none => none

/-- Strict UTF-8 decoding of a byte string to code points. -/
def utf8Decode (bs : List Nat) : Option (List Nat) := utf8DecodeLoop bs.length bs


/-! ## The frame codec (`TCPProtocol` in `server.py` and `client.py`)

`encode_message`: a dict is serialized with `json.dumps`, a string is used
directly; the UTF-8 payload is prefixed with its length packed as a 4-byte
big-endian unsigned integer. The `none` cases bundle the three ways the
Python code can raise: `AttributeError` (a message that is neither dict nor
str has no `.encode`), `UnicodeEncodeError` (surrogates), and `struct.error`
(payload of 2^32 bytes or more cannot be packed in the field).

`decode_message`: with fewer than 4 buffered bytes, or fewer than `4 + N`
where `N` is the unpacked length, returns `(None, data)`; otherwise slices
the payload, decodes UTF-8 (an invalid payload raises `UnicodeDecodeError`,
the `.error` result — only `json.JSONDecodeError` is caught), tries
`json.loads`, and degrades a JSON failure to the bare decoded string. -/

/-- `struct.pack` of a 4-byte big-endian unsigned integer (callers establish
the value fits). -/
def pack32 (n : Nat) : List Nat :=
  [n / 16777216 % 256, n / 65536 % 256, n / 256 % 256, n % 256]

/-- `struct.unpack` of a 4-byte big-endian unsigned integer. -/
def unpack32 : List Nat → Nat
  | [a, b, c, d] => a * 16777216 + b * 65536 + c * 256 + d
  | _ => 0

/-- The exception `decode_message` can propagate. -/
inductive PyErr : Type where
  | unicodeDecodeError : PyErr
  deriving DecidableEq

/-- `TCPProtocol.encode_message`. -/
def encode_message (message : PyValue) : Option (List Nat) :=
  match message with
  | .pdict kvs =>
    match utf8Encode (dumps (.pdict kvs)) with
    | some message_bytes =>
      if message_bytes.length < 4294967296
      then some (pack32 message_bytes.length ++ message_bytes)
      else none
    | none => none
  | .pstr s =>
    match utf8Encode s with
    | some message_bytes =>
      if message_bytes.length < 4294967296
      then some (pack32 message_bytes.length ++ message_bytes)
      else none
    | none => none
  | _ => none

/-- `TCPProtocol.decode_message`. -/
def decode_message (data : List Nat) : Except PyErr (Option PyValue × List Nat) :=
  if data.length < 4 then .ok (none, data)
  else
    if data.length < 4 + unpack32 (data.take 4) then .ok (none, data)
    else
      match utf8Decode ((data.drop 4).take (unpack32 (data.take 4))) with
      | none => .error .unicodeDecodeError
      | some s =>
        match loads s with
        | some message => .ok (some message, data.drop (4 + unpack32 (data.take 4)))
        | none => .ok (some (.pstr s), data.drop (4 + unpack32 (data.take 4)))


/-! ## Server model (`TCPServer` / `TCPClientHandler` in `server.py`)

`datetime.now()` is ambient state; handlers take the timestamp strings as
parameters (`now1` for the first call in a handler body, `now2` for the
second). Sends are modelled as `(client_id, message)` pairs; the registry
`TCPServer.clients` keeps only the dict's keys, which is all the claims
observe. `message_count` is an `Int` because Python integers are unbounded
below and the counter can in fact go negative (see the C5 counterexample). -/

/-- The mutable server state: the connection registry (dict keys in insertion
order), the broadcast counter and the start timestamp. -/
structure TCPServer : Type where
  clients : List (List Nat)
  message_count : Int
  start_time : List Nat

/-- Python truthiness of the optional `exclude_client` string. -/
def truthyId : Option (List Nat) → Bool
  | none => false
  | some s => !s.isEmpty

/-- `TCPServer.broadcast_message`: send to every registry member whose id
differs from `exclude_client`, add the registry size to the counter, then
subtract one when `exclude_client` is truthy. -/
def broadcast_message (srv : TCPServer) (message : PyValue)
    (exclude_client : Option (List Nat)) : TCPServer × List (List Nat × PyValue) :=
  let sends := (srv.clients.filter fun cid =>
    match exclude_client with
    | none => true
    | some e => cid != e).map fun cid => (cid, message)
  let count1 := srv.message_count + srv.clients.length
  let count2 := if truthyId exclude_client then count1 - 1 else count1
  ({ srv with message_count := count2 }, sends)

/-- Python `dict` lookup on the association-list representation. -/
def dictGet (kvs : List (List Nat × PyValue)) (key : List Nat) : Option PyValue :=
  match kvs with
  | [] => none
  | (k, v) :: rest => if k = key then some v else dictGet rest key

/-- `dict.get` with a default. -/
def dictGetD (kvs : List (List Nat × PyValue)) (key : List Nat) (d : PyValue) : PyValue :=
  (dictGet kvs key).getD d

def typeKey : List Nat := strCodes "type"
def timestampKey : List Nat := strCodes "timestamp"
def contentKey : List Nat := strCodes "content"

/-- `TCPClientHandler._handle_ping`. -/
def handle_ping (client_id now : List Nat) (message : List (List Nat × PyValue)) :
    List (List Nat × PyValue) :=
  [(client_id, .pdict [
    (typeKey, .pstr (strCodes "pong")),
    (strCodes "ping_timestamp", (dictGet message timestampKey).getD .pnull),
    (strCodes "pong_timestamp", .pstr now),
    (strCodes "client_id", .pstr client_id)])]

/-- `TCPClientHandler._handle_echo`. -/
def handle_echo (client_id now : List Nat) (message : List (List Nat × PyValue)) :
    List (List Nat × PyValue) :=
  [(client_id, .pdict [
    (typeKey, .pstr (strCodes "echo_response")),
    (contentKey, dictGetD message contentKey (.pstr [])),
    (timestampKey, .pstr now),
    (strCodes "echoed_by", .pstr (strCodes "TCP Server"))])]

/-- `TCPClientHandler._handle_broadcast`: fan the message out through the
registry excluding the sender, then confirm to the sender with
`len(self.server.clients) - 1` as the recipient count. -/
def handle_broadcast (srv : TCPServer) (client_id now1 now2 : List Nat)
    (message : List (List Nat × PyValue)) : TCPServer × List (List Nat × PyValue) :=
  let broadcast_msg : PyValue := .pdict [
    (typeKey, .pstr (strCodes "broadcast")),
    (strCodes "from_client", .pstr client_id),
    (contentKey, dictGetD message contentKey (.pstr [])),
    (timestampKey, .pstr now1)]
  let result := broadcast_message srv broadcast_msg (some client_id)
  let confirmation : PyValue := .pdict [
    (typeKey, .pstr (strCodes "broadcast_sent")),
    (strCodes "recipients", .pint ((result.1.clients.length : Int) - 1)),
    (timestampKey, .pstr now2)]
  (result.1, result.2 ++ [(client_id, confirmation)])

/-- `TCPServer.get_stats` (uptime is computed from the ambient clock in the
source, so it is a parameter here). -/
def get_stats (srv : TCPServer) (uptime_seconds : Int) (now : List Nat) : PyValue :=
  .pdict [
    (typeKey, .pstr (strCodes "server_stats")),
    (strCodes "connected_clients", .pint srv.clients.length),
    (strCodes "uptime_seconds", .pint uptime_seconds),
    (strCodes "total_messages", .pint srv.message_count),
    (strCodes "server_start_time", .pstr srv.start_time),
    (strCodes "current_time", .pstr now)]

/-- The default fallback response of `_process_message` for an unrecognized
structured message. -/
def default_response (client_id now : List Nat) (message : PyValue) :
    List (List Nat × PyValue) :=
  [(client_id, .pdict [
    (typeKey, .pstr (strCodes "response")),
    (strCodes "original_message", message),
    (timestampKey, .pstr now),
    (strCodes "from_server", .pbool true)])]

/-- `TCPClientHandler._process_message`: dispatch a decoded message on its
`type` tag when it is a dict; wrap anything else in an `echo`-shaped reply. -/
def process_message (srv : TCPServer) (client_id now1 now2 : List Nat)
    (uptime_seconds : Int) (message : PyValue) : TCPServer × List (List Nat × PyValue) :=
  match message with
  | .pdict kvs =>
    match dictGetD kvs typeKey (.pstr (strCodes "unknown")) with
    | .pstr ty =>
      if ty = strCodes "ping" then (srv, handle_ping client_id now1 kvs)
      else if ty = strCodes "echo" then (srv, handle_echo client_id now1 kvs)
      else if ty = strCodes "broadcast" then handle_broadcast srv client_id now1 now2 kvs
      else if ty = strCodes "get_stats" then
        (srv, [(client_id, get_stats srv uptime_seconds now1)])
      else (srv, default_response client_id now1 message)
    | _ => (srv, default_response client_id now1 message)
  | _ =>
    (srv, [(client_id, .pdict [
      (typeKey, .pstr (strCodes "echo")),
      (strCodes "original_text", message),
      (timestampKey, .pstr now1),
      (strCodes "from_server", .pbool true)])])

/-- The per-connection flags `_cleanup` touches. -/
structure TCPClientHandler : Type where
  running : Bool
  socket_closed : Bool

/-- `TCPClientHandler._cleanup`: stop the loop, close the socket (inside a
bare `except: pass`, so never raising), and delete the registry entry only
when present. -/
def cleanup (_h : TCPClientHandler) (client_id : List Nat) (srv : TCPServer) :
    TCPClientHandler × TCPServer :=
  let h2 : TCPClientHandler := { running := false, socket_closed := true }
  if client_id ∈ srv.clients then
    (h2, { srv with clients := srv.clients.erase client_id })
  else (h2, srv)

/-! ## Client model (`TCPClient` in `client.py`) -/

/-- The client state the claims observe: the connected flag and the receive
buffer. -/
structure TCPClient : Type where
  connected : Bool
  buffer : List Nat

/-- `TCPClient.send_message`: refuse when not connected (returning `False`
with nothing written and the state untouched); otherwise encode and write.
The third component is the bytes handed to `socket.send`. -/
def client_send_message (c : TCPClient) (message : PyValue) :
    Bool × TCPClient × List Nat :=
  if c.connected = false then (false, c, [])
  else
    match encode_message message with
    | some encoded => (true, c, encoded)
    | none => (false, c, [])

/-- `TCPClient.ping`. -/
def client_ping (c : TCPClient) (now client_info : List Nat) :
    Bool × TCPClient × List Nat :=
  client_send_message c (.pdict [
    (typeKey, .pstr (strCodes "ping")),
    (timestampKey, .pstr now),
    (strCodes "client_info", .pstr client_info)])

/-- `TCPClient.echo`. -/
def client_echo (c : TCPClient) (content : PyValue) (now : List Nat) :
    Bool × TCPClient × List Nat :=
  client_send_message c (.pdict [
    (typeKey, .pstr (strCodes "echo")),
    (contentKey, content),
    (timestampKey, .pstr now)])

/-- `TCPClient.broadcast`. -/
def client_broadcast (c : TCPClient) (content : PyValue) (now : List Nat) :
    Bool × TCPClient × List Nat :=
  client_send_message c (.pdict [
    (typeKey, .pstr (strCodes "broadcast")),
    (contentKey, content),
    (timestampKey, .pstr now)])

/-- `TCPClient.get_server_stats`. -/
def client_get_server_stats (c : TCPClient) (now : List Nat) :
    Bool × TCPClient × List Nat :=
  client_send_message c (.pdict [
    (typeKey, .pstr (strCodes "get_stats")),
    (timestampKey, .pstr now)])

/-- Lexicographic order on code-point strings; on ISO-8601 timestamps of a
common format this is chronological order. -/
def isoLe : List Nat → List Nat → Bool
  | [], _ => true
  | _ :: _, [] => false
  | a :: s, b :: t => if a < b then true else if a = b then isoLe s t else false

/-- The class of messages the round trip provably preserves: structured
mappings built from strings, integers, booleans, `None` and nested
containers (no floats — Python serializes a float through `repr`, which is
outside the embedding, and a NaN-valued entry in fact breaks the round trip
since `NaN != NaN`), and text payloads that do not parse under Python's
accepted grammar (JSON extended with float syntax, `NaN` and signed
`Infinity`, all of which the model's `loads` now accepts). -/
def RoundTrips (m : PyValue) : Prop :=
  (∃ kvs, m = .pdict kvs ∧ floatFree (.pdict kvs) = true) ∨
  (∃ s, m = .pstr s ∧ loads s = none)

/-! ## Concrete evaluations (sanity anchors for the model) -/

example : loads (strCodes "123") = some (.pint 123) := rfl
example : loads (strCodes "hello") = none := rfl
example : loads (strCodes "{}") = some (.pdict []) := rfl
example : loads (strCodes "-45") = some (.pint (-45)) := rfl
example : loads (strCodes "true") = some (.pbool true) := rfl
example : loads (dumps (.pdict [(strCodes "a", .pint 1), (strCodes "b", .plist [.pnull, .pbool false])]))
    = some (.pdict [(strCodes "a", .pint 1), (strCodes "b", .plist [.pnull, .pbool false])]) := rfl
example : loads (strCodes "01") = none := rfl
example : dumps (.pdict [(strCodes "a", .pint 1)]) = [123, 34, 97, 34, 58, 32, 49, 125] := rfl
example : dumps (.pstr (strCodes "h\ni")) = strCodes "\"h\\ni\"" := rfl
example : loads (strCodes "\"h\\u000bi\"") = some (.pstr [104, 11, 105]) := rfl
example : loads (strCodes " [1, -2] ") = some (.plist [.pint 1, .pint (-2)]) := rfl
example : dumps (.pint (-208)) = strCodes "-208" := rfl

example : loads (strCodes "1.5") = some (.pfloat (strCodes "1.5")) := rfl
example : loads (strCodes "1e5") = some (.pfloat (strCodes "1e5")) := rfl
example : loads (strCodes "0e0") = some (.pfloat (strCodes "0e0")) := rfl
example : loads (strCodes "-2.5E-3") = some (.pfloat (strCodes "-2.5E-3")) := rfl
example : loads (strCodes "NaN") = some (.pfloat (strCodes "NaN")) := rfl
example : loads (strCodes "Infinity") = some (.pfloat (strCodes "Infinity")) := rfl
example : loads (strCodes "-Infinity") = some (.pfloat (strCodes "-Infinity")) := rfl
example : loads (strCodes "[1.5]") = some (.plist [.pfloat (strCodes "1.5")]) := rfl
example : loads (strCodes "1e") = none := rfl
example : loads (strCodes "1.") = none := rfl
example : loads (strCodes "1.e5") = none := rfl
example : loads (strCodes "-Inf") = none := rfl
example : decode_message [0, 0, 0, 3, 49, 46, 53] = .ok (some (.pfloat (strCodes "1.5")), []) := rfl

example : utf8Encode [104, 233, 8364, 128512] =
    some [104, 195, 169, 226, 130, 172, 240, 159, 152, 128] := rfl
example : utf8Decode [104, 195, 169, 226, 130, 172, 240, 159, 152, 128] =
    some [104, 233, 8364, 128512] := rfl
example : utf8Decode [255] = none := rfl
example : utf8Encode [55296] = none := rfl

example : encode_message (.pstr (strCodes "hi")) = some [0, 0, 0, 2, 104, 105] := rfl
example : decode_message [0, 0, 0, 2, 104, 105] = .ok (some (.pstr (strCodes "hi")), []) := rfl
example : decode_message [0, 0, 0, 3, 49, 50, 51] = .ok (some (.pint 123), []) := rfl
example : decode_message [0, 0, 0, 1, 255] = .error .unicodeDecodeError := rfl
example : decode_message [0, 0, 0] = .ok (none, [0, 0, 0]) := rfl
example : decode_message [0, 0, 0, 9, 104] = .ok (none, [0, 0, 0, 9, 104]) := rfl

/-! ## Decimal digits: serialization and parsing invert each other -/

theorem natDigitsAux_congr : ∀ f g n, n < f → n < g → natDigitsAux f n = natDigitsAux g n := by
  intro f
  induction f with
  | zero => intro g n hf; omega
  | succ f ih =>
    intro g n hf hg
    cases g with
    | zero => omega
    | succ g =>
      rw [natDigitsAux, natDigitsAux]
      by_cases h : n < 10
      · simp [h]
      · simp only [if_neg h]
        rw [ih g (n / 10) (by omega) (by omega)]

/-- The natural recursion equation for `natToDigits`. -/
theorem natToDigits_eq (n : Nat) :
    natToDigits n = if n < 10 then [48 + n] else natToDigits (n / 10) ++ [48 + n % 10] := by
  show natDigitsAux (n + 1) n = _
  rw [natDigitsAux]
  by_cases h : n < 10
  · simp [h]
  · simp only [if_neg h]
    rw [natDigitsAux_congr n (n / 10 + 1) (n / 10) (by omega) (by omega)]
    rfl

theorem natToDigits_ne_nil (n : Nat) : natToDigits n ≠ [] := by
  rw [natToDigits_eq]
  by_cases h : n < 10 <;> simp [h]

theorem natToDigits_digits : ∀ n, ∀ c ∈ natToDigits n, 48 ≤ c ∧ c ≤ 57 := by
  intro n
  induction n using Nat.strong_induction_on with
  | _ n ih =>
    rw [natToDigits_eq]
    by_cases h : n < 10
    · simp only [if_pos h, List.mem_singleton]
      omega
    · simp only [if_neg h, List.mem_append, List.mem_singleton]
      rintro c (hc | hc)
      · exact ih (n / 10) (by omega) c hc
      · omega

theorem natToDigits_head_ne_48 :
    ∀ n, 1 ≤ n → ∀ d t, natToDigits n = d :: t → d ≠ 48 := by
  intro n
  induction n using Nat.strong_induction_on with
  | _ n ih =>
    intro hn d t heq
    rw [natToDigits_eq] at heq
    by_cases h : n < 10
    · rw [if_pos h] at heq
      simp only [List.cons.injEq] at heq
      omega
    · rw [if_neg h] at heq
      obtain ⟨d', t', hd⟩ : ∃ d' t', natToDigits (n / 10) = d' :: t' := by
        cases hnd : natToDigits (n / 10) with
        | nil => exact absurd hnd (natToDigits_ne_nil _)
        | cons a b => exact ⟨a, b, rfl⟩
      rw [hd] at heq
      simp only [List.cons_append, List.cons.injEq] at heq
      rw [← heq.1]
      exact ih (n / 10) (by omega) (by omega) d' t' hd

theorem digitsVal_append (a : Nat) (xs ys : List Nat) :
    digitsVal a (xs ++ ys) = digitsVal (digitsVal a xs) ys := by
  induction xs generalizing a with
  | nil => rfl
  | cons x xs ih => exact ih (a * 10 + (x - 48))

theorem digitsVal_natToDigits :
    ∀ n a, digitsVal a (natToDigits n) = a * 10 ^ (natToDigits n).length + n := by
  intro n
  induction n using Nat.strong_induction_on with
  | _ n ih =>
    intro a
    rw [natToDigits_eq]
    by_cases h : n < 10
    · rw [if_pos h]
      show a * 10 + (48 + n - 48) = a * 10 ^ [48 + n].length + n
      rw [List.length_singleton, pow_one]
      omega
    · rw [if_neg h, digitsVal_append, ih (n / 10) (by omega) a]
      show (a * 10 ^ (natToDigits (n / 10)).length + n / 10) * 10 + (48 + n % 10 - 48) =
        a * 10 ^ (natToDigits (n / 10) ++ [48 + n % 10]).length + n
      rw [List.length_append, List.length_singleton, pow_succ, ← mul_assoc]
      generalize a * 10 ^ (natToDigits (n / 10)).length = M
      omega

theorem natToDigits_length_ge_two (n : Nat) (h : ¬ n < 10) :
    2 ≤ (natToDigits n).length := by
  rw [natToDigits_eq, if_neg h, List.length_append, List.length_singleton]
  have := natToDigits_ne_nil (n / 10)
  cases hnd : natToDigits (n / 10) with
  | nil => exact absurd hnd this
  | cons a b => simp [hnd]

theorem takeWhile_append_all {p : Nat → Bool} :
    ∀ (a b : List Nat), (∀ c ∈ a, p c = true) →
      (∀ c t, b = c :: t → p c = false) →
      (a ++ b).takeWhile p = a ∧ (a ++ b).dropWhile p = b := by
  intro a
  induction a with
  | nil =>
    intro b _ hb
    cases b with
    | nil => simp
    | cons c t => simp [List.takeWhile, List.dropWhile, hb c t rfl]
  | cons x a ih =>
    intro b ha hb
    have hx : p x = true := ha x (List.mem_cons_self x a)
    have := ih b (fun c hc => ha c (List.mem_cons_of_mem x hc)) hb
    simp [List.takeWhile, List.dropWhile, hx, this.1, this.2]

theorem numStop_head {rest : List Nat} (h : numStop rest = true) :
    ∀ c t, rest = c :: t → isDigitB c = false ∧ c ≠ 46 ∧ c ≠ 101 ∧ c ≠ 69 := by
  intro c t heq
  subst heq
  simp only [numStop, Bool.not_eq_true', Bool.or_eq_false_iff,
    decide_eq_false_iff_not] at h
  exact ⟨h.1.1.1, h.1.1.2, h.1.2, h.2⟩

/-- Parsing the decimal digits of `n` followed by a stop character yields
`n`. -/
theorem parseNum_natToDigits (n : Nat) (rest : List Nat) (h : numStop rest = true) :
    parseNum (natToDigits n ++ rest) = some (n, rest) := by
  have hall : ∀ c ∈ natToDigits n, isDigitB c = true := by
    intro c hc
    have := natToDigits_digits n c hc
    simp [isDigitB]
    omega
  have htw := takeWhile_append_all (natToDigits n) rest hall
    (fun c t hct => (numStop_head h c t hct).1)
  rw [parseNum]
  simp only [htw.1, htw.2]
  by_cases h10 : n < 10
  · have hone : natToDigits n = [48 + n] := by rw [natToDigits_eq, if_pos h10]
    rw [hone]
    have h48 : 48 + n - 48 = n := by omega
    show some (48 + n - 48, rest) = some (n, rest)
    rw [h48]
  · obtain ⟨d, t, hd⟩ : ∃ d t, natToDigits n = d :: t := by
      cases hnd : natToDigits n with
      | nil => exact absurd hnd (natToDigits_ne_nil _)
      | cons a b => exact ⟨a, b, rfl⟩
    obtain ⟨d2, t2, ht⟩ : ∃ d2 t2, t = d2 :: t2 := by
      have := natToDigits_length_ge_two n h10
      rw [hd] at this
      cases t with
      | nil => simp at this
      | cons a b => exact ⟨a, b, rfl⟩
    have hd48 : d ≠ 48 := natToDigits_head_ne_48 n (by omega) d t hd
    rw [hd, ht]
    simp only [if_neg hd48]
    have := digitsVal_natToDigits n 0
    rw [hd, ht] at this
    simp only [zero_mul, zero_add] at this
    rw [this]

example : parseNum (natToDigits 120 ++ [93]) = some (120, [93]) := by
  exact parseNum_natToDigits 120 [93] rfl

/-- A stopped rest has no fraction part to consume. -/
theorem parseFracPart_stop (r : List Nat) (h : numStop r = true) :
    parseFracPart r = ([], r) := by
  cases r with
  | nil => rfl
  | cons c t =>
    have hc := (numStop_head h c t rfl).2.1
    simp [parseFracPart, hc]

/-- A stopped rest has no exponent part to consume. -/
theorem parseExpPart_stop (r : List Nat) (h : numStop r = true) :
    parseExpPart r = ([], r) := by
  cases r with
  | nil => rfl
  | cons c t =>
    have h1 := (numStop_head h c t rfl).2.2.1
    have h2 := (numStop_head h c t rfl).2.2.2
    simp [parseExpPart, h1, h2]

/-- Parsing the serialized digits of `n` followed by a stop character yields
the integer: no fraction or exponent is present, so no float arises. -/
theorem parseNumber_natToDigits (neg : Bool) (n : Nat) (rest : List Nat)
    (h : numStop rest = true) :
    parseNumber neg (natToDigits n ++ rest) =
      some (.pint (if neg then -(n : Int) else (n : Int)), rest) := by
  rw [parseNumber, parseNum_natToDigits n rest h]
  simp only [parseFracPart_stop rest h, parseExpPart_stop rest h]
  simp

/-! ## String escaping and unescaping invert each other -/

theorem parseHex_hexDigit (x : Nat) (h : x < 16) : parseHex (hexDigit x) = some x := by
  rw [hexDigit]
  by_cases h10 : x < 10
  · rw [if_pos h10, parseHex, if_pos (by omega)]
    congr 1
    omega
  · rw [if_neg h10, parseHex, if_neg (by omega), if_pos (by omega)]
    congr 1
    omega

theorem parseStringBody_escStr :
    ∀ (s rest : List Nat), parseStringBody (escStr s ++ 34 :: rest) = some (s, rest) := by
  intro s
  induction s with
  | nil =>
    intro rest
    rw [parseStringBody.eq_def]
    simp [escStr]
  | cons c s ih =>
    intro rest
    rw [escStr, List.append_assoc]
    by_cases h1 : c = 34
    · subst h1
      rw [show escChar 34 = [92, 34] from rfl]
      rw [List.cons_append, List.cons_append, List.nil_append, parseStringBody.eq_def]
      simp [escMap, ih]
    by_cases h2 : c = 92
    · subst h2
      rw [show escChar 92 = [92, 92] from rfl]
      rw [List.cons_append, List.cons_append, List.nil_append, parseStringBody.eq_def]
      simp [escMap, ih]
    by_cases h3 : c = 8
    · subst h3
      rw [show escChar 8 = [92, 98] from rfl]
      rw [List.cons_append, List.cons_append, List.nil_append, parseStringBody.eq_def]
      simp [escMap, ih]
    by_cases h4 : c = 9
    · subst h4
      rw [show escChar 9 = [92, 116] from rfl]
      rw [List.cons_append, List.cons_append, List.nil_append, parseStringBody.eq_def]
      simp [escMap, ih]
    by_cases h5 : c = 10
    · subst h5
      rw [show escChar 10 = [92, 110] from rfl]
      rw [List.cons_append, List.cons_append, List.nil_append, parseStringBody.eq_def]
      simp [escMap, ih]
    by_cases h6 : c = 12
    · subst h6
      rw [show escChar 12 = [92, 102] from rfl]
      rw [List.cons_append, List.cons_append, List.nil_append, parseStringBody.eq_def]
      simp [escMap, ih]
    by_cases h7 : c = 13
    · subst h7
      rw [show escChar 13 = [92, 114] from rfl]
      rw [List.cons_append, List.cons_append, List.nil_append, parseStringBody.eq_def]
      simp [escMap, ih]
    by_cases h8 : c < 32
    · rw [escChar, if_neg h1, if_neg h2, if_neg h3, if_neg h4, if_neg h5, if_neg h6,
        if_neg h7, if_pos h8]
      rw [List.cons_append, List.cons_append, List.cons_append, List.cons_append,
        List.cons_append, List.cons_append, List.nil_append, parseStringBody.eq_def]
      have e2 : parseHex (hexDigit (c / 16)) = some (c / 16) := parseHex_hexDigit _ (by omega)
      have e3 : parseHex (hexDigit (c % 16)) = some (c % 16) := parseHex_hexDigit _ (by omega)
      simp only [show parseHex 48 = some 0 from rfl, e2, e3, ih]
      simp
      omega
    · rw [escChar, if_neg h1, if_neg h2, if_neg h3, if_neg h4, if_neg h5, if_neg h6,
        if_neg h7, if_neg h8]
      rw [List.cons_append, List.nil_append, parseStringBody.eq_def]
      simp [h1, h2, h8, ih]

example : parseStringBody (escStr (strCodes "a\"b\n") ++ 34 :: [58]) =
    some (strCodes "a\"b\n", [58]) := parseStringBody_escStr _ _

/-! ## The parser inverts the serializer -/

theorem skipWs_not (c : Nat) (t : List Nat) (h : isWs c = false) :
    skipWs (c :: t) = c :: t := by
  rw [skipWs.eq_def]
  simp [h]

theorem skipWs_ws (c : Nat) (t : List Nat) (h : isWs c = true) :
    skipWs (c :: t) = skipWs t := by
  rw [skipWs.eq_def]
  simp [h]

theorem parseValue_ws (fuel c : Nat) (t : List Nat) (h : isWs c = true) :
    parseValue fuel (c :: t) = parseValue fuel t := by
  cases fuel with
  | zero => rfl
  | succ f =>
    rw [parseValue.eq_def]
    conv_rhs => rw [parseValue.eq_def]
    rw [skipWs_ws c t h]

theorem fsize_pos : ∀ v, 1 ≤ fsize v := by
  intro v
  cases v <;> simp [fsize]

theorem numStop_items (xs : List PyValue) (rest : List Nat) :
    numStop (dumpsItems xs ++ 93 :: rest) = true := by
  cases xs with
  | nil => rfl
  | cons x xs =>
    rw [dumpsItems]
    rfl

theorem numStop_pairs (kvs : List (List Nat × PyValue)) (rest : List Nat) :
    numStop (dumpsPairs kvs ++ 125 :: rest) = true := by
  cases kvs with
  | nil => rfl
  | cons kv kvs =>
    obtain ⟨k, v⟩ := kv
    rw [dumpsPairs]
    rfl

/-- The serialization of any float-free value starts with a character that
is neither whitespace nor a closing delimiter, a separator or a colon. -/
theorem dumps_cons : ∀ v : PyValue, floatFree v = true →
    ∃ c t, dumps v = c :: t ∧ isWs c = false ∧
    c ≠ 93 ∧ c ≠ 125 ∧ c ≠ 44 ∧ c ≠ 58 := by
  intro v hff
  cases v with
  | pfloat tok => simp [floatFree] at hff
  | pstr s => exact ⟨34, escStr s ++ [34], by rw [dumps, dumpStr, List.cons_append],
      by decide, by decide, by decide, by decide, by decide⟩
  | pint i =>
    by_cases hi : i < 0
    · refine ⟨45, natToDigits (-i).toNat, ?_, by decide, by decide, by decide, by decide,
        by decide⟩
      rw [dumps, intToDigits, if_pos hi]
    · obtain ⟨c, t, hct⟩ : ∃ c t, natToDigits i.toNat = c :: t := by
        cases hnd : natToDigits i.toNat with
        | nil => exact absurd hnd (natToDigits_ne_nil _)
        | cons a b => exact ⟨a, b, rfl⟩
      have hd := natToDigits_digits i.toNat c (by rw [hct]; exact List.mem_cons_self c t)
      refine ⟨c, t, ?_, by simp [isWs]; omega, by omega, by omega, by omega, by omega⟩
      rw [dumps, intToDigits, if_neg hi, hct]
  | pbool b =>
    cases b
    · exact ⟨102, strCodes "alse", by rw [dumps]; decide, by decide, by decide, by decide,
        by decide, by decide⟩
    · exact ⟨116, strCodes "rue", by rw [dumps]; decide, by decide, by decide, by decide,
        by decide, by decide⟩
  | pnull => exact ⟨110, strCodes "ull", by rw [dumps]; decide, by decide, by decide,
      by decide, by decide, by decide⟩
  | plist xs =>
    cases xs with
    | nil => exact ⟨91, [93], by rw [dumps], by decide, by decide, by decide, by decide,
        by decide⟩
    | cons x xs => exact ⟨91, dumps x ++ dumpsItems xs ++ [93], by rw [dumps], by decide,
        by decide, by decide, by decide, by decide⟩
  | pdict kvs =>
    cases kvs with
    | nil => exact ⟨123, [125], by rw [dumps], by decide, by decide, by decide, by decide,
        by decide⟩
    | cons kv kvs =>
      obtain ⟨k, v⟩ := kv
      exact ⟨123, dumpStr k ++ [58, 32] ++ dumps v ++ dumpsPairs kvs ++ [125],
        by rw [dumps], by decide, by decide, by decide, by decide, by decide⟩

set_option maxHeartbeats 1000000 in
/-- Parsing inverts serialization on float-free values, given enough fuel:
one value followed by a number-stopping rest parses back exactly, and the
item/pair continuation parsers consume serialized tails up to the closing
delimiter. -/
theorem parse_dumps : ∀ fuel,
    (∀ v rest, fsize v ≤ fuel → floatFree v = true → numStop rest = true →
      parseValue fuel (dumps v ++ rest) = some (v, rest)) ∧
    (∀ acc xs rest, 1 + fsizeL xs ≤ fuel → floatFreeL xs = true →
      parseItemsRest fuel acc (dumpsItems xs ++ 93 :: rest) = some (.plist (acc ++ xs), rest)) ∧
    (∀ acc kvs rest, 1 + fsizeD kvs ≤ fuel → floatFreeD kvs = true →
      parsePairsRest fuel acc (dumpsPairs kvs ++ 125 :: rest) =
        some (.pdict (acc ++ kvs), rest)) := by
  intro fuel
  induction fuel with
  | zero =>
    refine ⟨?_, ?_, ?_⟩
    · intro v rest hs _ _
      have := fsize_pos v
      omega
    · intro acc xs rest hs _
      omega
    · intro acc kvs rest hs _
      omega
  | succ f ih =>
    obtain ⟨ih1, ih2, ih3⟩ := ih
    refine ⟨?_, ?_, ?_⟩
    · intro v rest hs hff hnd
      cases v with
      | pfloat tok => simp [floatFree] at hff
      | pstr s =>
        rw [show dumps (.pstr s) = (34 :: escStr s) ++ [34] from by
          rw [dumps, dumpStr, List.cons_append]]
        rw [List.append_assoc, List.singleton_append, List.cons_append]
        rw [parseValue.eq_def, skipWs_not 34 _ (by decide)]
        simp [parseStringBody_escStr]
      | pint i =>
        by_cases hi : i < 0
        · obtain ⟨c, t, hct⟩ : ∃ c t, natToDigits (-i).toNat = c :: t := by
            cases hnd2 : natToDigits (-i).toNat with
            | nil => exact absurd hnd2 (natToDigits_ne_nil _)
            | cons a b => exact ⟨a, b, rfl⟩
          have hcd := natToDigits_digits (-i).toNat c
            (by rw [hct]; exact List.mem_cons_self c t)
          have hinf : ¬ ((natToDigits (-i).toNat ++ rest).take 8 = strCodes "Infinity") := by
            rw [hct, List.cons_append,
              show List.take 8 (c :: (t ++ rest)) = c :: List.take 7 (t ++ rest) from rfl,
              show strCodes "Infinity" = 73 :: [110, 102, 105, 110, 105, 116, 121] from rfl]
            intro hcontra
            injection hcontra with h1 _
            omega
          rw [show dumps (.pint i) = 45 :: natToDigits (-i).toNat from by
            rw [dumps, intToDigits, if_pos hi]]
          rw [List.cons_append, parseValue.eq_def, skipWs_not 45 _ (by decide)]
          simp [hinf, parseNumber_natToDigits true ((-i).toNat) rest hnd]
          omega
        · obtain ⟨c, t, hct⟩ : ∃ c t, natToDigits i.toNat = c :: t := by
            cases hnd2 : natToDigits i.toNat with
            | nil => exact absurd hnd2 (natToDigits_ne_nil _)
            | cons a b => exact ⟨a, b, rfl⟩
          have hcd := natToDigits_digits i.toNat c (by rw [hct]; exact List.mem_cons_self c t)
          have hnum := parseNumber_natToDigits false i.toNat rest hnd
          rw [hct] at hnum
          rw [show dumps (.pint i) = natToDigits i.toNat from by
            rw [dumps, intToDigits, if_neg hi]]
          rw [hct, List.cons_append, parseValue.eq_def,
            skipWs_not c _ (by simp [isWs]; omega)]
          rw [List.cons_append] at hnum
          simp only [hnum]
          simp only [show (c = 123) = False from by simp; omega,
            show (c = 91) = False from by simp; omega,
            show (c = 34) = False from by simp; omega,
            show (c = 45) = False from by simp; omega,
            show (48 ≤ c ∧ c ≤ 57) = True from by simp; omega]
          simp
          omega
      | pbool b =>
        cases b
        · rw [show dumps (.pbool false) = 102 :: strCodes "alse" from by rw [dumps]; decide]
          rw [List.cons_append, parseValue.eq_def, skipWs_not 102 _ (by decide)]
          simp [strCodes, parseConst]
        · rw [show dumps (.pbool true) = 116 :: strCodes "rue" from by rw [dumps]; decide]
          rw [List.cons_append, parseValue.eq_def, skipWs_not 116 _ (by decide)]
          simp [strCodes, parseConst]
      | pnull =>
        rw [show dumps .pnull = 110 :: strCodes "ull" from by rw [dumps]; decide]
        rw [List.cons_append, parseValue.eq_def, skipWs_not 110 _ (by decide)]
        simp [strCodes, parseConst]
      | plist xs =>
        cases xs with
        | nil =>
          rw [show dumps (.plist []) = [91, 93] from by rw [dumps]]
          rw [show ([91, 93] : List Nat) ++ rest = 91 :: 93 :: rest from by simp]
          rw [parseValue.eq_def, skipWs_not 91 _ (by decide)]
          simp [skipWs_not 93 rest (by decide)]
        | cons x xs =>
          have hsx : fsize x ≤ f ∧ 1 + fsizeL xs ≤ f := by
            rw [fsize, fsizeL] at hs
            have := fsize_pos x
            omega
          have hffx : floatFree x = true ∧ floatFreeL xs = true := by
            rw [floatFree, floatFreeL, Bool.and_eq_true] at hff
            exact hff
          rw [show dumps (.plist (x :: xs)) = 91 :: (dumps x ++ dumpsItems xs ++ [93]) from by
            rw [dumps]]
          rw [List.cons_append, List.append_assoc, List.append_assoc,
            List.singleton_append]
          rw [parseValue.eq_def, skipWs_not 91 _ (by decide)]
          have hx := ih1 x (dumpsItems xs ++ 93 :: rest) hsx.1 hffx.1 (numStop_items xs rest)
          obtain ⟨c, t, hct, hws, h93, _, _, _⟩ := dumps_cons x hffx.1
          rw [hct, List.cons_append] at hx ⊢
          simp [skipWs_not c (t ++ (dumpsItems xs ++ 93 :: rest)) hws, h93, hx,
            ih2 [x] xs rest hsx.2 hffx.2]
      | pdict kvs =>
        cases kvs with
        | nil =>
          rw [show dumps (.pdict []) = [123, 125] from by rw [dumps]]
          rw [show ([123, 125] : List Nat) ++ rest = 123 :: 125 :: rest from by simp]
          rw [parseValue.eq_def, skipWs_not 123 _ (by decide)]
          simp [skipWs_not 125 rest (by decide)]
        | cons kv kvs =>
          obtain ⟨k, v⟩ := kv
          have hsv : fsize v ≤ f ∧ 1 + fsizeD kvs ≤ f := by
            rw [fsize, fsizeD] at hs
            have := fsize_pos v
            omega
          have hffv : floatFree v = true ∧ floatFreeD kvs = true := by
            rw [floatFree, floatFreeD, Bool.and_eq_true] at hff
            exact hff
          rw [show dumps (.pdict ((k, v) :: kvs)) =
              123 :: (dumpStr k ++ [58, 32] ++ dumps v ++ dumpsPairs kvs ++ [125]) from by
            rw [dumps]]
          rw [dumpStr, List.cons_append]
          rw [show (34 :: escStr k ++ [34]) ++ [58, 32] ++ dumps v ++ dumpsPairs kvs ++ [125]
                ++ rest
              = 34 :: (escStr k ++ 34 :: 58 :: 32 ::
                  (dumps v ++ (dumpsPairs kvs ++ 125 :: rest))) from by
            simp [List.append_assoc]]
          rw [parseValue.eq_def, skipWs_not 123 _ (by decide)]
          have hk := parseStringBody_escStr k (58 :: 32 :: (dumps v ++ (dumpsPairs kvs ++
            125 :: rest)))
          have hv : parseValue f (32 :: (dumps v ++ (dumpsPairs kvs ++ 125 :: rest))) =
              some (v, dumpsPairs kvs ++ 125 :: rest) := by
            rw [parseValue_ws f 32 _ (by decide)]
            exact ih1 v _ hsv.1 hffv.1 (numStop_pairs kvs rest)
          simp [skipWs_not 34 (escStr k ++ 34 :: 58 :: 32 ::
              (dumps v ++ (dumpsPairs kvs ++ 125 :: rest))) (by decide), hk,
            skipWs_not 58 (32 :: (dumps v ++ (dumpsPairs kvs ++ 125 :: rest))) (by decide),
            hv, ih3 [(k, v)] kvs rest hsv.2 hffv.2]
    · intro acc xs rest hs hff
      cases xs with
      | nil =>
        rw [show dumpsItems [] ++ 93 :: rest = 93 :: rest from by rw [dumpsItems]; simp]
        rw [parseItemsRest.eq_def, skipWs_not 93 _ (by decide)]
        simp
      | cons x xs =>
        have hsx : fsize x ≤ f ∧ 1 + fsizeL xs ≤ f := by
          rw [fsizeL] at hs
          have := fsize_pos x
          omega
        have hffx : floatFree x = true ∧ floatFreeL xs = true := by
          rw [floatFreeL, Bool.and_eq_true] at hff
          exact hff
        rw [show dumpsItems (x :: xs) ++ 93 :: rest
            = 44 :: 32 :: (dumps x ++ (dumpsItems xs ++ 93 :: rest)) from by
          rw [dumpsItems]; simp [List.append_assoc]]
        rw [parseItemsRest.eq_def, skipWs_not 44 _ (by decide)]
        have hx : parseValue f (32 :: (dumps x ++ (dumpsItems xs ++ 93 :: rest))) =
            some (x, dumpsItems xs ++ 93 :: rest) := by
          rw [parseValue_ws f 32 _ (by decide)]
          exact ih1 x _ hsx.1 hffx.1 (numStop_items xs rest)
        simp only [hx]
        have hrec := ih2 (acc ++ [x]) xs rest hsx.2 hffx.2
        simp at hrec ⊢
        simp [hrec]
    · intro acc kvs rest hs hff
      cases kvs with
      | nil =>
        rw [show dumpsPairs [] ++ 125 :: rest = 125 :: rest from by rw [dumpsPairs]; simp]
        rw [parsePairsRest.eq_def, skipWs_not 125 _ (by decide)]
        simp
      | cons kv kvs =>
        obtain ⟨k, v⟩ := kv
        have hsv : fsize v ≤ f ∧ 1 + fsizeD kvs ≤ f := by
          rw [fsizeD] at hs
          have := fsize_pos v
          omega
        have hffv : floatFree v = true ∧ floatFreeD kvs = true := by
          rw [floatFreeD, Bool.and_eq_true] at hff
          exact hff
        rw [show dumpsPairs ((k, v) :: kvs) ++ 125 :: rest
            = 44 :: 32 :: 34 :: (escStr k ++ 34 :: 58 :: 32 ::
                (dumps v ++ (dumpsPairs kvs ++ 125 :: rest))) from by
          rw [dumpsPairs, dumpStr]; simp [List.append_assoc]]
        rw [parsePairsRest.eq_def, skipWs_not 44 _ (by decide)]
        have hk := parseStringBody_escStr k (58 :: 32 :: (dumps v ++ (dumpsPairs kvs ++
          125 :: rest)))
        have hv : parseValue f (32 :: (dumps v ++ (dumpsPairs kvs ++ 125 :: rest))) =
            some (v, dumpsPairs kvs ++ 125 :: rest) := by
          rw [parseValue_ws f 32 _ (by decide)]
          exact ih1 v _ hsv.1 hffv.1 (numStop_pairs kvs rest)
        have hrec := ih3 (acc ++ [(k, v)]) kvs rest hsv.2 hffv.2
        simp [skipWs_ws 32 (34 :: (escStr k ++ 34 :: 58 :: 32 ::
            (dumps v ++ (dumpsPairs kvs ++ 125 :: rest)))) (by decide),
          skipWs_not 34 (escStr k ++ 34 :: 58 :: 32 ::
            (dumps v ++ (dumpsPairs kvs ++ 125 :: rest))) (by decide), hk,
          skipWs_not 58 (32 :: (dumps v ++ (dumpsPairs kvs ++ 125 :: rest))) (by decide),
          hv, hrec]

/-- The fuel a serialized value needs is within the fuel `loads` supplies. -/
theorem fsize_le_dumps_all : ∀ n : Nat,
    (∀ v, fsize v ≤ n → fsize v ≤ (dumps v).length + 1) ∧
    (∀ xs, fsizeL xs ≤ n → fsizeL xs ≤ (dumpsItems xs).length) ∧
    (∀ kvs, fsizeD kvs ≤ n → fsizeD kvs ≤ (dumpsPairs kvs).length) := by
  intro n
  induction n with
  | zero =>
    refine ⟨?_, ?_, ?_⟩
    · intro v hv
      have := fsize_pos v
      omega
    · intro xs hxs
      cases xs with
      | nil => simp [fsizeL]
      | cons x xs =>
        rw [fsizeL] at hxs
        have := fsize_pos x
        omega
    · intro kvs hkvs
      cases kvs with
      | nil => simp [fsizeD]
      | cons kv kvs =>
        obtain ⟨k, v⟩ := kv
        rw [fsizeD] at hkvs
        have := fsize_pos v
        omega
  | succ n ih =>
    obtain ⟨ih1, ih2, ih3⟩ := ih
    refine ⟨?_, ?_, ?_⟩
    · intro v hv
      cases v with
      | pstr s => rw [fsize]; omega
      | pint i => rw [fsize]; omega
      | pbool b => rw [fsize]; omega
      | pnull => rw [fsize]; omega
      | pfloat tok => rw [fsize]; omega
      | plist xs =>
        cases xs with
        | nil => rw [fsize, fsizeL]; omega
        | cons x xs =>
          rw [fsize, fsizeL] at hv ⊢
          have h1 := ih1 x (by have := fsize_pos x; omega)
          have h2 := ih2 xs (by have := fsize_pos x; omega)
          rw [show dumps (.plist (x :: xs)) = 91 :: (dumps x ++ dumpsItems xs ++ [93]) from by
            rw [dumps]]
          simp only [List.length_cons, List.length_append, List.length_singleton]
          omega
      | pdict kvs =>
        cases kvs with
        | nil => rw [fsize, fsizeD]; omega
        | cons kv kvs =>
          obtain ⟨k, v⟩ := kv
          rw [fsize, fsizeD] at hv ⊢
          have h1 := ih1 v (by have := fsize_pos v; omega)
          have h2 := ih3 kvs (by have := fsize_pos v; omega)
          rw [show dumps (.pdict ((k, v) :: kvs)) =
              123 :: (dumpStr k ++ [58, 32] ++ dumps v ++ dumpsPairs kvs ++ [125]) from by
            rw [dumps]]
          simp only [List.length_cons, List.length_append, List.length_singleton]
          omega
    · intro xs hxs
      cases xs with
      | nil => simp [fsizeL]
      | cons x xs =>
        rw [fsizeL] at hxs ⊢
        have h1 := ih1 x (by have := fsize_pos x; omega)
        have h2 := ih2 xs (by have := fsize_pos x; omega)
        rw [show dumpsItems (x :: xs) = 44 :: 32 :: (dumps x ++ dumpsItems xs) from by
          rw [dumpsItems]]
        simp only [List.length_cons, List.length_append]
        omega
    · intro kvs hkvs
      cases kvs with
      | nil => simp [fsizeD]
      | cons kv kvs =>
        obtain ⟨k, v⟩ := kv
        rw [fsizeD] at hkvs ⊢
        have h1 := ih1 v (by have := fsize_pos v; omega)
        have h2 := ih3 kvs (by have := fsize_pos v; omega)
        rw [show dumpsPairs ((k, v) :: kvs) =
            44 :: 32 :: (dumpStr k ++ [58, 32] ++ dumps v ++ dumpsPairs kvs) from by
          rw [dumpsPairs]]
        simp only [List.length_cons, List.length_append]
        omega

/-- `json.loads` inverts `json.dumps` on every float-free value of the
embedding. -/
theorem loads_dumps (v : PyValue) (hff : floatFree v = true) :
    loads (dumps v) = some v := by
  have hfuel : fsize v ≤ (dumps v).length + 1 :=
    (fsize_le_dumps_all (fsize v)).1 v le_rfl
  have := (parse_dumps ((dumps v).length + 1)).1 v [] hfuel hff rfl
  rw [List.append_nil] at this
  rw [loads, this]
  rfl

/-! ## UTF-8 decoding inverts encoding -/

theorem utf8DecodeChar1_encodeChar (c : Nat) (cb : List Nat)
    (h : utf8EncodeChar c = some cb) (r : List Nat) :
    utf8DecodeChar1 (cb ++ r) = some (c, r) := by
  rw [utf8EncodeChar] at h
  by_cases h1 : c < 128
  · rw [if_pos h1] at h
    obtain rfl : [c] = cb := by injection h
    rw [List.singleton_append, utf8DecodeChar1.eq_def]
    simp [if_pos h1]
  · rw [if_neg h1] at h
    by_cases h2 : c < 2048
    · rw [if_pos h2] at h
      obtain rfl : [192 + c / 64, 128 + c % 64] = cb := by injection h
      have e1 : (192 + c / 64 < 128) = False := by simp; omega
      have e2 : (192 + c / 64 < 194) = False := by simp; omega
      have e3 : (192 + c / 64 < 224) = True := by simp; omega
      have e4 : (128 ≤ 128 + c % 64 ∧ 128 + c % 64 < 192) = True := by simp; omega
      rw [List.cons_append, List.cons_append, List.nil_append, utf8DecodeChar1.eq_def]
      simp only [e1, e2, e3, e4, if_false, if_true]
      simp only [Option.some.injEq, Prod.mk.injEq]
      exact ⟨by omega, trivial⟩
    · rw [if_neg h2] at h
      by_cases h3 : c < 65536
      · rw [if_pos h3] at h
        by_cases h4 : 55296 ≤ c ∧ c ≤ 57343
        · rw [if_pos h4] at h
          exact absurd h (by simp)
        · rw [if_neg h4] at h
          obtain rfl : [224 + c / 4096, 128 + c / 64 % 64, 128 + c % 64] = cb := by injection h
          have e1 : (224 + c / 4096 < 128) = False := by simp; omega
          have e2 : (224 + c / 4096 < 194) = False := by simp; omega
          have e3 : (224 + c / 4096 < 224) = False := by simp
          have e4 : (224 + c / 4096 < 240) = True := by simp; omega
          have e5 : ((128 ≤ 128 + c / 64 % 64 ∧ 128 + c / 64 % 64 < 192) ∧
              128 ≤ 128 + c % 64 ∧ 128 + c % 64 < 192) = True := by simp; omega
          have ev : (224 + c / 4096 - 224) * 4096 + (128 + c / 64 % 64 - 128) * 64 +
              (128 + c % 64 - 128) = c := by omega
          have e6 : (c < 2048) = False := by simp; omega
          have e7 : (55296 ≤ c ∧ c ≤ 57343) = False := by simp [h4]
          rw [List.cons_append, List.cons_append, List.cons_append, List.nil_append,
            utf8DecodeChar1.eq_def]
          simp only [e1, e2, e3, e4, e5, if_false, if_true, ev, e6, e7]
      · rw [if_neg h3] at h
        by_cases h5 : c < 1114112
        · rw [if_pos h5] at h
          obtain rfl : [240 + c / 262144, 128 + c / 4096 % 64, 128 + c / 64 % 64,
              128 + c % 64] = cb := by injection h
          have e1 : (240 + c / 262144 < 128) = False := by simp; omega
          have e2 : (240 + c / 262144 < 194) = False := by simp; omega
          have e3 : (240 + c / 262144 < 224) = False := by simp; omega
          have e4 : (240 + c / 262144 < 240) = False := by simp
          have e5 : (240 + c / 262144 < 245) = True := by simp; omega
          have e6 : ((128 ≤ 128 + c / 4096 % 64 ∧ 128 + c / 4096 % 64 < 192) ∧
              (128 ≤ 128 + c / 64 % 64 ∧ 128 + c / 64 % 64 < 192) ∧
              128 ≤ 128 + c % 64 ∧ 128 + c % 64 < 192) = True := by simp; omega
          have ev : (240 + c / 262144 - 240) * 262144 + (128 + c / 4096 % 64 - 128) * 4096 +
              (128 + c / 64 % 64 - 128) * 64 + (128 + c % 64 - 128) = c := by omega
          have e7 : (c < 65536) = False := by simp; omega
          have e8 : (1114112 ≤ c) = False := by simp; omega
          rw [List.cons_append, List.cons_append, List.cons_append, List.cons_append,
            List.nil_append, utf8DecodeChar1.eq_def]
          simp only [e1, e2, e3, e4, e5, e6, if_false, if_true, ev, e7, e8]
        · rw [if_neg h5] at h
          exact absurd h (by simp)

theorem utf8EncodeChar_ne_nil (c : Nat) (cb : List Nat) (h : utf8EncodeChar c = some cb) :
    ∃ b bt, cb = b :: bt := by
  rw [utf8EncodeChar] at h
  by_cases h1 : c < 128
  · rw [if_pos h1] at h
    exact ⟨c, [], by injection h with h2; exact h2.symm⟩
  rw [if_neg h1] at h
  by_cases h2 : c < 2048
  · rw [if_pos h2] at h
    exact ⟨192 + c / 64, [128 + c % 64], by injection h with h2; exact h2.symm⟩
  rw [if_neg h2] at h
  by_cases h3 : c < 65536
  · rw [if_pos h3] at h
    by_cases h4 : 55296 ≤ c ∧ c ≤ 57343
    · rw [if_pos h4] at h
      exact absurd h (by simp)
    · rw [if_neg h4] at h
      exact ⟨224 + c / 4096, [128 + c / 64 % 64, 128 + c % 64],
        by injection h with h2; exact h2.symm⟩
  rw [if_neg h3] at h
  by_cases h5 : c < 1114112
  · rw [if_pos h5] at h
    exact ⟨240 + c / 262144, [128 + c / 4096 % 64, 128 + c / 64 % 64, 128 + c % 64],
      by injection h with h2; exact h2.symm⟩
  · rw [if_neg h5] at h
    exact absurd h (by simp)

theorem utf8DecodeLoop_encode : ∀ (s : List Nat) (fuel : Nat) (bs : List Nat),
    utf8Encode s = some bs → s.length ≤ fuel → utf8DecodeLoop fuel bs = some s := by
  intro s
  induction s with
  | nil =>
    intro fuel bs h _
    rw [utf8Encode] at h
    obtain rfl : [] = bs := by injection h
    cases fuel <;> rfl
  | cons c t ih =>
    intro fuel bs h hf
    rw [utf8Encode] at h
    cases hc : utf8EncodeChar c with
    | none => rw [hc] at h; exact absurd h (by simp)
    | some cb =>
      rw [hc] at h
      cases ht : utf8Encode t with
      | none => rw [ht] at h; exact absurd h (by simp)
      | some tb =>
        rw [ht] at h
        obtain rfl : cb ++ tb = bs := by injection h
        obtain ⟨b, bt, rfl⟩ := utf8EncodeChar_ne_nil c cb hc
        cases fuel with
        | zero => simp at hf
        | succ f =>
          rw [List.cons_append, utf8DecodeLoop]
          rw [show (b :: (bt ++ tb)) = (b :: bt) ++ tb from by rw [List.cons_append]]
          rw [utf8DecodeChar1_encodeChar c (b :: bt) hc tb]
          simp [ih f tb ht (by simp at hf; omega)]

theorem utf8Encode_length : ∀ (s bs : List Nat), utf8Encode s = some bs →
    s.length ≤ bs.length := by
  intro s
  induction s with
  | nil =>
    intro bs h
    rw [utf8Encode] at h
    obtain rfl : [] = bs := by injection h
    simp
  | cons c t ih =>
    intro bs h
    rw [utf8Encode] at h
    cases hc : utf8EncodeChar c with
    | none => rw [hc] at h; exact absurd h (by simp)
    | some cb =>
      rw [hc] at h
      cases ht : utf8Encode t with
      | none => rw [ht] at h; exact absurd h (by simp)
      | some tb =>
        rw [ht] at h
        obtain rfl : cb ++ tb = bs := by injection h
        obtain ⟨b, bt, rfl⟩ := utf8EncodeChar_ne_nil c cb hc
        have := ih tb ht
        simp
        omega

/-- Decoding inverts encoding for whole strings. -/
theorem utf8Decode_utf8Encode (s bs : List Nat) (h : utf8Encode s = some bs) :
    utf8Decode bs = some s := by
  rw [utf8Decode]
  exact utf8DecodeLoop_encode s bs.length bs h (utf8Encode_length s bs h)

/-! ## Frame-level behavior of `decode_message` -/

theorem unpack32_pack32 (n : Nat) (h : n < 4294967296) : unpack32 (pack32 n) = n := by
  rw [pack32, unpack32]
  omega

theorem pack32_length (n : Nat) : (pack32 n).length = 4 := rfl

/-- Decoding a buffer that starts with one complete encoded frame consumes
exactly that frame: the length prefix is read back, the payload is sliced
out, and the bytes after the frame are returned untouched. -/
theorem decode_message_frame (p extra : List Nat) (h : p.length < 4294967296) :
    decode_message ((pack32 p.length ++ p) ++ extra) =
      match utf8Decode p with
      | none => .error .unicodeDecodeError
      | some s =>
        match loads s with
        | some v => .ok (some v, extra)
        | none => .ok (some (.pstr s), extra) := by
  have hassoc : (pack32 p.length ++ p) ++ extra = pack32 p.length ++ (p ++ extra) :=
    List.append_assoc _ _ _
  have hlen : ((pack32 p.length ++ p) ++ extra).length = 4 + p.length + extra.length := by
    simp [pack32]
    omega
  have htake : ((pack32 p.length ++ p) ++ extra).take 4 = pack32 p.length := by
    rw [hassoc, show (4 : Nat) = (pack32 p.length).length from rfl]
    exact List.take_left _ _
  have hdrop4 : ((pack32 p.length ++ p) ++ extra).drop 4 = p ++ extra := by
    rw [hassoc, show (4 : Nat) = (pack32 p.length).length from rfl]
    exact List.drop_left _ _
  have hdropall : ((pack32 p.length ++ p) ++ extra).drop (4 + p.length) = extra := by
    rw [show (4 : Nat) + p.length = (pack32 p.length ++ p).length from by simp [pack32]; omega]
    exact List.drop_left _ _
  rw [decode_message, htake, unpack32_pack32 _ h, hdrop4, hdropall]
  rw [if_neg (by rw [hlen]; omega), if_neg (by rw [hlen]; omega)]
  rw [List.take_left]

/-- The shape of a successfully encoded message: a 4-byte length prefix
followed by the payload whose length it declares. -/
theorem encode_message_shape (m : PyValue) (bytes : List Nat)
    (h : encode_message m = some bytes) :
    ∃ p, p.length < 4294967296 ∧ bytes = pack32 p.length ++ p := by
  cases m with
  | pdict kvs =>
    rw [encode_message] at h
    cases hue : utf8Encode (dumps (.pdict kvs)) with
    | none => rw [hue] at h; exact absurd h (by simp)
    | some p =>
      rw [hue] at h
      have h2 : (if p.length < 4294967296 then some (pack32 p.length ++ p) else none)
          = some bytes := h
      by_cases hl : p.length < 4294967296
      · rw [if_pos hl] at h2
        exact ⟨p, hl, by injection h2 with h3; exact h3.symm⟩
      · rw [if_neg hl] at h2
        exact absurd h2 (by simp)
  | pstr s =>
    rw [encode_message] at h
    cases hue : utf8Encode s with
    | none => rw [hue] at h; exact absurd h (by simp)
    | some p =>
      rw [hue] at h
      have h2 : (if p.length < 4294967296 then some (pack32 p.length ++ p) else none)
          = some bytes := h
      by_cases hl : p.length < 4294967296
      · rw [if_pos hl] at h2
        exact ⟨p, hl, by injection h2 with h3; exact h3.symm⟩
      · rw [if_neg hl] at h2
        exact absurd h2 (by simp)
  | pint i =>
    rw [show encode_message (.pint i) = none from rfl] at h
    exact absurd h (by simp)
  | pbool b =>
    cases b
    · rw [show encode_message (.pbool false) = none from rfl] at h
      exact absurd h (by simp)
    · rw [show encode_message (.pbool true) = none from rfl] at h
      exact absurd h (by simp)
  | pnull =>
    rw [show encode_message .pnull = none from rfl] at h
    exact absurd h (by simp)
  | pfloat tok =>
    rw [show encode_message (.pfloat tok) = none from rfl] at h
    exact absurd h (by simp)
  | plist xs =>
    rw [show encode_message (.plist xs) = none from rfl] at h
    exact absurd h (by simp)

/-! ## Claims -/


/-- C1 (amended): for every structured message that is a float-free mapping,
and for every plain-text payload that does not parse under Python's accepted
grammar (JSON extended with float syntax, `NaN` and signed `Infinity`),
decoding the encoding yields the message back with an empty remaining buffer
(whenever encoding succeeds, i.e. the payload is under 2^32 bytes of valid
UTF-8). The amendment is forced by `c1_counterexample`: a text payload that
parses — a JSON value such as `"123"`, or float syntax such as `"1.5"` that
`json.loads` also accepts — decodes to the parsed value instead of the
original string. -/
theorem c1_roundtrip (m : PyValue) (bytes : List Nat) (hm : RoundTrips m)
    (henc : encode_message m = some bytes) :
    decode_message bytes = .ok (some m, []) := by
  rcases hm with ⟨kvs, rfl, hff⟩ | ⟨s, rfl, hl⟩
  · rw [encode_message] at henc
    cases hue : utf8Encode (dumps (.pdict kvs)) with
    | none => rw [hue] at henc; exact absurd henc (by simp)
    | some p =>
      rw [hue] at henc
      have h2 : (if p.length < 4294967296 then some (pack32 p.length ++ p) else none)
          = some bytes := henc
      by_cases hlen : p.length < 4294967296
      · rw [if_pos hlen] at h2
        obtain rfl : pack32 p.length ++ p = bytes := by injection h2
        have hframe := decode_message_frame p [] hlen
        rw [List.append_nil] at hframe
        rw [utf8Decode_utf8Encode _ p hue] at hframe
        simp only [loads_dumps _ hff] at hframe
        exact hframe
      · rw [if_neg hlen] at h2
        exact absurd h2 (by simp)
  · rw [encode_message] at henc
    cases hue : utf8Encode s with
    | none => rw [hue] at henc; exact absurd henc (by simp)
    | some p =>
      rw [hue] at henc
      have h2 : (if p.length < 4294967296 then some (pack32 p.length ++ p) else none)
          = some bytes := henc
      by_cases hlen : p.length < 4294967296
      · rw [if_pos hlen] at h2
        obtain rfl : pack32 p.length ++ p = bytes := by injection h2
        have hframe := decode_message_frame p [] hlen
        rw [List.append_nil] at hframe
        rw [utf8Decode_utf8Encode _ p hue] at hframe
        simp only [hl] at hframe
        exact hframe
      · rw [if_neg hlen] at h2
        exact absurd h2 (by simp)

/-- C1 (counterexample): the round trip fails as universally stated — the
plain-text payload `"123"` encodes fine, but decoding returns the JSON
integer `123`, not the string; likewise `"1.5"`, which `json.loads` parses
as a float, comes back as the parsed float rather than the string. -/
theorem c1_counterexample :
    encode_message (.pstr (strCodes "123")) = some [0, 0, 0, 3, 49, 50, 51] ∧
    decode_message [0, 0, 0, 3, 49, 50, 51] = .ok (some (.pint 123), []) ∧
    PyValue.pint 123 ≠ PyValue.pstr (strCodes "123") ∧
    encode_message (.pstr (strCodes "1.5")) = some [0, 0, 0, 3, 49, 46, 53] ∧
    decode_message [0, 0, 0, 3, 49, 46, 53] = .ok (some (.pfloat (strCodes "1.5")), []) ∧
    PyValue.pfloat (strCodes "1.5") ≠ PyValue.pstr (strCodes "1.5") :=
  ⟨rfl, rfl, fun h => PyValue.noConfusion h, rfl, rfl, fun h => PyValue.noConfusion h⟩

/-- C1 (witness): the amended round trip at the concrete mapping `{}`. -/
theorem c1_roundtrip_witness :
    decode_message [0, 0, 0, 2, 123, 125] = .ok (some (.pdict []), []) :=
  c1_roundtrip (.pdict []) [0, 0, 0, 2, 123, 125] (Or.inl ⟨[], rfl, rfl⟩) rfl

/-- C2 (amended): on a complete frame whose payload bytes decode as UTF-8,
`decode_message` never raises: it returns an `ok` result, and when the
payload does not parse under Python's accepted grammar (`loads` here models
`json.loads` including float syntax, `NaN` and signed `Infinity`, so a
payload like `1.5` is returned as the parsed float, not degraded) it
degrades to the bare decoded string (`RawText`). The amendment is forced by
`c2_counterexample`: a complete frame whose payload is not valid UTF-8
raises `UnicodeDecodeError` (only `json.JSONDecodeError` is caught by the
source). -/
theorem c2_no_raise (data s : List Nat) (h4 : ¬ data.length < 4)
    (hN : ¬ data.length < 4 + unpack32 (data.take 4))
    (hu : utf8Decode ((data.drop 4).take (unpack32 (data.take 4))) = some s) :
    (∃ r, decode_message data = Except.ok r) ∧
    (loads s = none →
      decode_message data = .ok (some (.pstr s), data.drop (4 + unpack32 (data.take 4)))) := by
  rw [decode_message, if_neg h4, if_neg hN, hu]
  cases hl : loads s with
  | some v =>
    refine ⟨⟨(some v, data.drop (4 + unpack32 (data.take 4))), by simp [hl]⟩, fun hc => ?_⟩
    exact Option.noConfusion hc
  | none =>
    exact ⟨⟨(some (.pstr s), data.drop (4 + unpack32 (data.take 4))), by simp [hl]⟩,
      fun _ => by simp [hl]⟩

/-- C2 (counterexample): the complete frame `00 00 00 01 ff` (declared
length 1, buffer holds all 5 bytes) makes `decode_message` raise
`UnicodeDecodeError`, so decoding a complete frame can fail with an
exception rather than degrading to `RawText`. -/
theorem c2_counterexample :
    ¬ ([0, 0, 0, 1, 255] : List Nat).length <
        4 + unpack32 (([0, 0, 0, 1, 255] : List Nat).take 4) ∧
    decode_message [0, 0, 0, 1, 255] = .error .unicodeDecodeError :=
  ⟨by decide, rfl⟩

/-- C2 (witness): the amended statement at the concrete frame holding the
single byte `h`, which is valid UTF-8 but not JSON. -/
theorem c2_no_raise_witness :
    (∃ r, decode_message [0, 0, 0, 1, 104] = Except.ok r) ∧
    (loads [104] = none →
      decode_message [0, 0, 0, 1, 104] =
        .ok (some (.pstr [104]),
          ([0, 0, 0, 1, 104] : List Nat).drop
            (4 + unpack32 (([0, 0, 0, 1, 104] : List Nat).take 4)))) :=
  c2_no_raise [0, 0, 0, 1, 104] [104] (by decide) (by decide) rfl

/-- C3 (amended): a buffer of fewer than 4 bytes, or one whose declared
length exceeds what is buffered, decodes to `(none, buffer)` unchanged;
consequently every strict prefix of an encoded frame decodes to none, and
once all bytes are present (with any suffix appended) decoding yields
exactly the message an unsplit decode of the frame yields, with the suffix
as the remaining buffer. The amendment is forced by `c3_counterexample`:
"yields exactly m" fails for a text payload that parses as JSON, exactly as
in C1. -/
theorem c3_partial_delivery (m : PyValue) (bytes : List Nat) (m' : PyValue)
    (extra : List Nat) (henc : encode_message m = some bytes)
    (hdec : decode_message bytes = .ok (some m', [])) :
    (∀ buf : List Nat, buf.length < 4 → decode_message buf = .ok (none, buf)) ∧
    (∀ buf : List Nat, ¬ buf.length < 4 → buf.length < 4 + unpack32 (buf.take 4) →
      decode_message buf = .ok (none, buf)) ∧
    (∀ i, i < bytes.length → decode_message (bytes.take i) = .ok (none, bytes.take i)) ∧
    decode_message (bytes ++ extra) = .ok (some m', extra) := by
  obtain ⟨p, hp, rfl⟩ := encode_message_shape m bytes henc
  have hlenb : (pack32 p.length ++ p).length = 4 + p.length := by
    simp [pack32]
    omega
  refine ⟨?_, ?_, ?_, ?_⟩
  · intro buf hb
    rw [decode_message, if_pos hb]
  · intro buf hb4 hbn
    rw [decode_message, if_neg hb4, if_pos hbn]
  · intro i hi
    by_cases hi4 : i < 4
    · have hl4 : (List.take i (pack32 p.length ++ p)).length < 4 := by
        rw [List.length_take]
        omega
      rw [decode_message, if_pos hl4]
    · have htl : (List.take i (pack32 p.length ++ p)).length = i := by
        rw [List.length_take, hlenb]
        rw [hlenb] at hi
        omega
      have htt : (List.take i (pack32 p.length ++ p)).take 4 = pack32 p.length := by
        rw [List.take_take, show min 4 i = 4 from by omega,
          show (4 : Nat) = (pack32 p.length).length from rfl]
        exact List.take_left _ _
      rw [hlenb] at hi
      rw [decode_message, htt, unpack32_pack32 _ hp, if_neg (by omega),
        if_pos (by rw [htl]; omega)]
  · have hframe := decode_message_frame p extra hp
    have h0 := decode_message_frame p [] hp
    rw [List.append_nil] at h0
    rw [h0] at hdec
    rw [hframe]
    cases hu : utf8Decode p with
    | none =>
      simp only [hu] at hdec
      exact absurd hdec (by simp)
    | some s =>
      simp only [hu] at hdec
      cases hl : loads s with
      | some v =>
        simp only [hl, Except.ok.injEq, Prod.mk.injEq, Option.some.injEq] at hdec
        simp only [hu, hl]
        rw [hdec.1]
      | none =>
        simp only [hl, Except.ok.injEq, Prod.mk.injEq, Option.some.injEq] at hdec
        simp only [hu, hl]
        rw [hdec.1]

/-- C3 (counterexample): the text payload `"true"` encodes fine and every
insufficient prefix decodes to none, but once all bytes arrive the decoder
yields the JSON boolean `true`, not the original string — "yields exactly m"
fails as stated. -/
theorem c3_counterexample :
    encode_message (.pstr (strCodes "true")) = some [0, 0, 0, 4, 116, 114, 117, 101] ∧
    decode_message [0, 0, 0, 4, 116, 114, 117, 101] = .ok (some (.pbool true), []) ∧
    PyValue.pbool true ≠ PyValue.pstr (strCodes "true") :=
  ⟨rfl, rfl, fun h => PyValue.noConfusion h⟩

/-- C3 (witness): the amended statement at the encoded `{}` frame split
before its last byte and refed with a trailing byte. -/
theorem c3_partial_delivery_witness :
    (∀ buf : List Nat, buf.length < 4 → decode_message buf = .ok (none, buf)) ∧
    (∀ buf : List Nat, ¬ buf.length < 4 → buf.length < 4 + unpack32 (buf.take 4) →
      decode_message buf = .ok (none, buf)) ∧
    (∀ i, i < ([0, 0, 0, 2, 123, 125] : List Nat).length →
      decode_message (([0, 0, 0, 2, 123, 125] : List Nat).take i) =
        .ok (none, ([0, 0, 0, 2, 123, 125] : List Nat).take i)) ∧
    decode_message ([0, 0, 0, 2, 123, 125] ++ [42]) = .ok (some (.pdict []), [42]) :=
  c3_partial_delivery (.pdict []) [0, 0, 0, 2, 123, 125] (.pdict []) [42] rfl rfl

/-- C4: a broadcast from client `A` with content `c` fans out a `broadcast`
message with `from_client = A` and `content = c` to every registry member
other than `A`; `A` never receives that broadcast message; `A` receives the
`broadcast_sent` confirmation whose `recipients` field is the registry size
minus one; and nothing is sent to ids outside the registry other than `A`'s
confirmation. -/
theorem c4_broadcast_exclusion (srv : TCPServer) (A now1 now2 : List Nat)
    (msg : List (List Nat × PyValue)) (c : PyValue)
    (hc : dictGet msg contentKey = some c) :
    (∀ B, B ∈ srv.clients → B ≠ A →
      (B, PyValue.pdict [(typeKey, .pstr (strCodes "broadcast")),
        (strCodes "from_client", .pstr A), (contentKey, c),
        (timestampKey, .pstr now1)]) ∈ (handle_broadcast srv A now1 now2 msg).2) ∧
    (A, PyValue.pdict [(typeKey, .pstr (strCodes "broadcast")),
        (strCodes "from_client", .pstr A), (contentKey, c),
        (timestampKey, .pstr now1)]) ∉ (handle_broadcast srv A now1 now2 msg).2 ∧
    (A, PyValue.pdict [(typeKey, .pstr (strCodes "broadcast_sent")),
        (strCodes "recipients", .pint ((srv.clients.length : Int) - 1)),
        (timestampKey, .pstr now2)]) ∈ (handle_broadcast srv A now1 now2 msg).2 ∧
    (∀ B m, (B, m) ∈ (handle_broadcast srv A now1 now2 msg).2 →
      B ∈ srv.clients ∨ B = A) := by
  refine ⟨?_, ?_, ?_, ?_⟩
  · intro B hB hBA
    simp only [handle_broadcast, broadcast_message, dictGetD, hc]
    apply List.mem_append_left
    simp only [List.mem_map, List.mem_filter]
    exact ⟨B, ⟨hB, by simp [hBA]⟩, rfl⟩
  · intro hmem
    simp only [handle_broadcast, broadcast_message, dictGetD, hc] at hmem
    rcases List.mem_append.mp hmem with hin | hin
    · simp only [List.mem_map, List.mem_filter] at hin
      obtain ⟨cid, ⟨_, hcid⟩, heq⟩ := hin
      have : cid = A := by
        have := congrArg Prod.fst heq
        simpa using this
      rw [this] at hcid
      simp at hcid
    · simp at hin
  · simp only [handle_broadcast, broadcast_message, dictGetD, hc]
    apply List.mem_append_right
    simp
  · intro B m hm
    simp only [handle_broadcast, broadcast_message, dictGetD, hc] at hm
    rcases List.mem_append.mp hm with hin | hin
    · simp only [List.mem_map, List.mem_filter] at hin
      obtain ⟨cid, ⟨hcid, _⟩, heq⟩ := hin
      left
      have : cid = B := by
        have := congrArg Prod.fst heq
        simpa using this
      rw [← this]
      exact hcid
    · right
      have := congrArg Prod.fst (List.mem_singleton.mp hin)
      simpa using this

/-- C4 (witness): the broadcast properties at a concrete two-client registry
with sender `"a"`, content `"hi"`. -/
theorem c4_broadcast_exclusion_witness :
    (∀ B, B ∈ (⟨[strCodes "a", strCodes "b"], 0, []⟩ : TCPServer).clients →
      B ≠ strCodes "a" →
      (B, PyValue.pdict [(typeKey, .pstr (strCodes "broadcast")),
        (strCodes "from_client", .pstr (strCodes "a")),
        (contentKey, .pstr (strCodes "hi")),
        (timestampKey, .pstr [49])]) ∈
          (handle_broadcast ⟨[strCodes "a", strCodes "b"], 0, []⟩ (strCodes "a")
            [49] [50] [(contentKey, .pstr (strCodes "hi"))]).2) ∧
    (strCodes "a", PyValue.pdict [(typeKey, .pstr (strCodes "broadcast")),
        (strCodes "from_client", .pstr (strCodes "a")),
        (contentKey, .pstr (strCodes "hi")),
        (timestampKey, .pstr [49])]) ∉
          (handle_broadcast ⟨[strCodes "a", strCodes "b"], 0, []⟩ (strCodes "a")
            [49] [50] [(contentKey, .pstr (strCodes "hi"))]).2 ∧
    (strCodes "a", PyValue.pdict [(typeKey, .pstr (strCodes "broadcast_sent")),
        (strCodes "recipients",
          .pint (((⟨[strCodes "a", strCodes "b"], 0, []⟩ : TCPServer).clients.length : Int)
            - 1)),
        (timestampKey, .pstr [50])]) ∈
          (handle_broadcast ⟨[strCodes "a", strCodes "b"], 0, []⟩ (strCodes "a")
            [49] [50] [(contentKey, .pstr (strCodes "hi"))]).2 ∧
    (∀ B m, (B, m) ∈ (handle_broadcast ⟨[strCodes "a", strCodes "b"], 0, []⟩ (strCodes "a")
        [49] [50] [(contentKey, .pstr (strCodes "hi"))]).2 →
      B ∈ (⟨[strCodes "a", strCodes "b"], 0, []⟩ : TCPServer).clients ∨ B = strCodes "a") :=
  c4_broadcast_exclusion ⟨[strCodes "a", strCodes "b"], 0, []⟩ (strCodes "a") [49] [50]
    [(contentKey, .pstr (strCodes "hi"))] (.pstr (strCodes "hi")) rfl

/-- C5 (amended): when the excluded sender is a registry member (with the
registry keys distinct, as Python dict keys are) and its id is truthy,
`broadcast_message` increases `message_count` by exactly the number of
actual recipients, and in particular the counter does not decrease. The
amendment is forced by `c5_counterexample`: with the excluded sender absent
— e.g. an empty registry — the counter changes by registry size minus one,
which differs from the recipient count and can even decrease the counter. -/
theorem c5_count_increment (srv : TCPServer) (m : PyValue) (a : List Nat)
    (hmem : a ∈ srv.clients) (hnd : srv.clients.Nodup) (hne : a ≠ []) :
    (broadcast_message srv m (some a)).1.message_count =
      srv.message_count + ((broadcast_message srv m (some a)).2.length : Int) ∧
    srv.message_count ≤ (broadcast_message srv m (some a)).1.message_count := by
  have htr : truthyId (some a) = true := by
    cases a with
    | nil => exact absurd rfl hne
    | cons x t => rfl
  have herase : srv.clients.erase a = srv.clients.filter (fun cid => cid != a) :=
    hnd.erase_eq_filter a
  have hfl : (srv.clients.filter (fun cid => cid != a)).length =
      srv.clients.length - 1 := by
    rw [← herase]
    exact List.length_erase_of_mem hmem
  have hpos : 1 ≤ srv.clients.length := List.length_pos.mpr (List.ne_nil_of_mem hmem)
  constructor
  · simp only [broadcast_message, htr, if_pos, List.length_map, hfl]
    omega
  · simp only [broadcast_message, htr, if_pos]
    omega

/-- C5 (counterexample): `broadcast_message` on an empty registry with a
truthy excluded sender delivers to nobody yet decreases the counter from 5
to 4 — the counter is not monotonically non-decreasing, and the increment
(−1) differs from the number of actual recipients (0). -/
theorem c5_counterexample :
    (broadcast_message ⟨[], 5, []⟩ .pnull (some [97])).1.message_count = 4 ∧
    ¬ ((5 : Int) ≤ (broadcast_message ⟨[], 5, []⟩ .pnull (some [97])).1.message_count) ∧
    (broadcast_message ⟨[], 5, []⟩ .pnull (some [97])).2.length = 0 :=
  ⟨rfl, by decide, rfl⟩

/-- C5 (witness): the amended increment property at a concrete two-client
registry. -/
theorem c5_count_increment_witness :
    (broadcast_message ⟨[[97], [98]], 7, []⟩ .pnull (some [97])).1.message_count =
      7 + (((broadcast_message ⟨[[97], [98]], 7, []⟩ .pnull (some [97])).2.length : Int)) ∧
    (7 : Int) ≤ (broadcast_message ⟨[[97], [98]], 7, []⟩ .pnull (some [97])).1.message_count :=
  c5_count_increment ⟨[[97], [98]], 7, []⟩ .pnull [97] (by decide) (by decide) (by decide)

/-- C6: `_cleanup` is idempotent — a second cleanup on an already
cleaned-up connection (given distinct registry keys, as Python dict keys
are) changes nothing: the registry, the running flag and the socket state
stay as the first cleanup left them, and cleanup of an id absent from the
registry leaves the registry untouched. The model is total, reflecting that
`_cleanup` cannot raise (`close` is wrapped in a bare `except: pass` and the
registry delete is guarded by a membership test). -/
theorem c6_cleanup_idempotent (h : TCPClientHandler) (cid : List Nat) (srv : TCPServer)
    (hnd : srv.clients.Nodup) :
    cleanup (cleanup h cid srv).1 cid (cleanup h cid srv).2 = cleanup h cid srv ∧
    (cid ∉ srv.clients → (cleanup h cid srv).2 = srv) := by
  constructor
  · by_cases hm : cid ∈ srv.clients
    · have hnotin : cid ∉ srv.clients.erase cid := by
        intro hx
        exact absurd ((hnd.mem_erase_iff).mp hx).1 (by simp)
      simp [cleanup, hm, hnotin]
    · simp [cleanup, hm]
  · intro hm
    simp [cleanup, hm]

/-- C6 (witness): idempotence at a concrete two-client registry. -/
theorem c6_cleanup_idempotent_witness :
    cleanup (cleanup ⟨true, false⟩ [97] ⟨[[97], [98]], 0, []⟩).1 [97]
        (cleanup ⟨true, false⟩ [97] ⟨[[97], [98]], 0, []⟩).2 =
      cleanup ⟨true, false⟩ [97] ⟨[[97], [98]], 0, []⟩ ∧
    (([97] : List Nat) ∉ (⟨[[97], [98]], 0, []⟩ : TCPServer).clients →
      (cleanup ⟨true, false⟩ [97] ⟨[[97], [98]], 0, []⟩).2 = ⟨[[97], [98]], 0, []⟩) :=
  c6_cleanup_idempotent ⟨true, false⟩ [97] ⟨[[97], [98]], 0, []⟩ (by decide)

/-- C7: a `ping` carrying `timestamp = T1` is answered by exactly one `pong`
whose `ping_timestamp` equals `T1` and whose `pong_timestamp` is the
server's current timestamp; under the clock hypothesis that the server's
timestamp at response time is no earlier than `T1` (lexicographic ISO-8601
order), the `pong_timestamp` is no earlier than `T1`. -/
theorem c7_ping_pong (cid now : List Nat) (msg : List (List Nat × PyValue)) (t1 : List Nat)
    (ht : dictGet msg timestampKey = some (.pstr t1)) (hclock : isoLe t1 now = true) :
    handle_ping cid now msg = [(cid, .pdict [
      (typeKey, .pstr (strCodes "pong")),
      (strCodes "ping_timestamp", .pstr t1),
      (strCodes "pong_timestamp", .pstr now),
      (strCodes "client_id", .pstr cid)])] ∧ isoLe t1 now = true :=
  ⟨by simp [handle_ping, ht], hclock⟩

/-- C7 (witness): the ping/pong reply at concrete timestamps `"1" ≤ "2"`. -/
theorem c7_ping_pong_witness :
    handle_ping [97] [50] [(timestampKey, .pstr [49])] = [([97], .pdict [
      (typeKey, .pstr (strCodes "pong")),
      (strCodes "ping_timestamp", .pstr [49]),
      (strCodes "pong_timestamp", .pstr [50]),
      (strCodes "client_id", .pstr [97])])] ∧ isoLe [49] [50] = true :=
  c7_ping_pong [97] [50] [(timestampKey, .pstr [49])] [49] rfl rfl

/-- C8: an inbound payload that decoded to a bare string (the `RawText`
case) is answered with an `echo`-type message whose `original_text` equals
the original string. -/
theorem c8_rawtext_echo (srv : TCPServer) (cid now1 now2 : List Nat) (uptime : Int)
    (s : List Nat) :
    process_message srv cid now1 now2 uptime (.pstr s) =
      (srv, [(cid, .pdict [
        (typeKey, .pstr (strCodes "echo")),
        (strCodes "original_text", .pstr s),
        (timestampKey, .pstr now1),
        (strCodes "from_server", .pbool true)])]) := rfl

/-- C9: an `echo` without a `content` field echoes the empty string; a
`broadcast` without a `content` field fans out with the empty string as
content; a `ping` without a `timestamp` field produces a `pong` whose
`ping_timestamp` is `None`. None of the three error: each handler is total
and produces its normal response shape. -/
theorem c9_missing_fields (srv : TCPServer) (cid now now1 now2 : List Nat)
    (msgE msgB msgP : List (List Nat × PyValue))
    (hE : dictGet msgE contentKey = none)
    (hB : dictGet msgB contentKey = none)
    (hP : dictGet msgP timestampKey = none) :
    handle_echo cid now msgE = [(cid, .pdict [
      (typeKey, .pstr (strCodes "echo_response")),
      (contentKey, .pstr []),
      (timestampKey, .pstr now),
      (strCodes "echoed_by", .pstr (strCodes "TCP Server"))])] ∧
    (∀ B m, (B, m) ∈ (handle_broadcast srv cid now1 now2 msgB).2 → B ≠ cid →
      m = .pdict [
        (typeKey, .pstr (strCodes "broadcast")),
        (strCodes "from_client", .pstr cid),
        (contentKey, .pstr []),
        (timestampKey, .pstr now1)]) ∧
    handle_ping cid now msgP = [(cid, .pdict [
      (typeKey, .pstr (strCodes "pong")),
      (strCodes "ping_timestamp", .pnull),
      (strCodes "pong_timestamp", .pstr now),
      (strCodes "client_id", .pstr cid)])] := by
  refine ⟨by simp [handle_echo, dictGetD, hE], ?_, by simp [handle_ping, hP]⟩
  intro B m hm hne
  simp only [handle_broadcast, broadcast_message, dictGetD, hB] at hm
  rcases List.mem_append.mp hm with hin | hin
  · simp only [List.mem_map, List.mem_filter] at hin
    obtain ⟨cid2, _, heq⟩ := hin
    have := congrArg Prod.snd heq
    simpa using this.symm
  · have := List.mem_singleton.mp hin
    have hfst := congrArg Prod.fst this
    simp at hfst
    exact absurd hfst hne

/-- C9 (witness): the three missing-field behaviors at empty message
dicts. -/
theorem c9_missing_fields_witness :
    handle_echo [97] [50] [] = [([97], .pdict [
      (typeKey, .pstr (strCodes "echo_response")),
      (contentKey, .pstr []),
      (timestampKey, .pstr [50]),
      (strCodes "echoed_by", .pstr (strCodes "TCP Server"))])] ∧
    (∀ B m, (B, m) ∈ (handle_broadcast ⟨[[97], [98]], 0, []⟩ [97] [49] [50] []).2 →
      B ≠ [97] →
      m = .pdict [
        (typeKey, .pstr (strCodes "broadcast")),
        (strCodes "from_client", .pstr [97]),
        (contentKey, .pstr []),
        (timestampKey, .pstr [49])]) ∧
    handle_ping [97] [50] [] = [([97], .pdict [
      (typeKey, .pstr (strCodes "pong")),
      (strCodes "ping_timestamp", .pnull),
      (strCodes "pong_timestamp", .pstr [50]),
      (strCodes "client_id", .pstr [97])])] :=
  c9_missing_fields ⟨[[97], [98]], 0, []⟩ [97] [50] [49] [50] [] [] [] rfl rfl rfl

/-- C10: every client send operation, called while the client is not
connected, returns `False`, writes no bytes, and leaves the client state
(connected flag and buffer) unchanged; the model is total, so no exception
is raised. This covers `send_message` itself and its callers `ping`,
`echo`, `broadcast` and `get_server_stats`. -/
theorem c10_send_not_connected (c : TCPClient) (m content : PyValue)
    (now info : List Nat) (h : c.connected = false) :
    client_send_message c m = (false, c, []) ∧
    client_ping c now info = (false, c, []) ∧
    client_echo c content now = (false, c, []) ∧
    client_broadcast c content now = (false, c, []) ∧
    client_get_server_stats c now = (false, c, []) := by
  simp [client_send_message, client_ping, client_echo, client_broadcast,
    client_get_server_stats, h]

/-- C10 (witness): the not-connected refusals at a concrete client state. -/
theorem c10_send_not_connected_witness :
    client_send_message ⟨false, []⟩ .pnull = (false, ⟨false, []⟩, []) ∧
    client_ping ⟨false, []⟩ [50] [99] = (false, ⟨false, []⟩, []) ∧
    client_echo ⟨false, []⟩ .pnull [50] = (false, ⟨false, []⟩, []) ∧
    client_broadcast ⟨false, []⟩ .pnull [50] = (false, ⟨false, []⟩, []) ∧
    client_get_server_stats ⟨false, []⟩ [50] = (false, ⟨false, []⟩, []) :=
  c10_send_not_connected ⟨false, []⟩ .pnull .pnull [50] [99] rfl
